import Mathlib

/-!
Shallow embedding of the rent-vs-buy repository's mathematical core and of its
two simulation engines, together with theorems settling the specification's
claims.  Sources: `src/public/main.py` (class `Financials`,
`generate_growth_matrices`, `run_projection`, `analyze_scenarios`) and
`src/main.py` (`calculate_monthly_payment`, `calculate_remaining_balance`,
`rent_vs_buy_analysis`).  Machine floats are modelled by `ℝ`; a Python
`ZeroDivisionError` (division by zero, or raising zero to a negative integer
power) is modelled by `Option.none` in the four amortization functions.
-/

namespace RentVsBuy

noncomputable section

open Classical

/-- Fixed monthly mortgage payment, from `Financials.calculate_pmt` in
`src/public/main.py`.  The annual rate is a percentage (6.5 means 6.5%); a
non-positive term or principal yields a zero payment. -/
def Financials.calculate_pmt (principal annual_rate : ℝ) (years : ℤ) : Option ℝ :=
  if years ≤ 0 ∨ principal ≤ 0 then some 0
  else if annual_rate = 0 then some (principal / ((years : ℝ) * 12))
  else
    let monthly_rate := annual_rate / 12 / 100
    let n_payments := years * 12
    if (1 + monthly_rate) ^ n_payments - 1 = 0 then none
    else some (principal * (monthly_rate * (1 + monthly_rate) ^ n_payments) /
      ((1 + monthly_rate) ^ n_payments - 1))

/-- Remaining principal after `months_paid` months, from
`Financials.get_remaining_balance` in `src/public/main.py`.  `none` models the
`ZeroDivisionError` raised when a divisor is zero (or when a zero base is
raised to a negative integer power). -/
def Financials.get_remaining_balance (principal annual_rate : ℝ)
    (years months_paid : ℤ) : Option ℝ :=
  if months_paid = 0 then some principal
  else
    let monthly_rate := annual_rate / 12 / 100
    let n_payments := years * 12
    if annual_rate = 0 then
      if ((n_payments : ℝ)) = 0 then none
      else some (principal - principal / (n_payments : ℝ) * (months_paid : ℝ))
    else if 1 + monthly_rate = 0 ∧ (n_payments < 0 ∨ months_paid < 0) then none
    else if (1 + monthly_rate) ^ n_payments - 1 = 0 then none
    else some (principal *
      (((1 + monthly_rate) ^ n_payments - (1 + monthly_rate) ^ months_paid) /
        ((1 + monthly_rate) ^ n_payments - 1)))

/-- Monthly mortgage payment from `calculate_monthly_payment` in `src/main.py`.
There the rate is a decimal (0.065 means 6.5%), and a non-positive term
returns the principal itself. -/
def calculate_monthly_payment (principal rate : ℝ) (years : ℤ) : Option ℝ :=
  if years ≤ 0 then some principal
  else if rate = 0 then some (principal / ((years : ℝ) * 12))
  else
    let monthly_rate := rate / 12
    let num_payments := years * 12
    if num_payments = 0 then some principal
    else if (1 + monthly_rate) ^ num_payments - 1 = 0 then none
    else some (principal * (monthly_rate * (1 + monthly_rate) ^ num_payments) /
      ((1 + monthly_rate) ^ num_payments - 1))

/-- Remaining balance from `calculate_remaining_balance` in `src/main.py`. -/
def calculate_remaining_balance (original_principal rate : ℝ)
    (years months_paid : ℤ) : Option ℝ :=
  if rate = 0 then
    if ((years : ℝ) * 12) = 0 then none
    else some (original_principal * (1 - (months_paid : ℝ) / ((years : ℝ) * 12)))
  else
    let monthly_rate := rate / 12
    (calculate_monthly_payment original_principal rate years).bind fun monthly_payment =>
      if 1 + monthly_rate = 0 ∧ months_paid < 0 then none
      else some (original_principal * (1 + monthly_rate) ^ months_paid -
        monthly_payment * ((1 + monthly_rate) ^ months_paid - 1) / monthly_rate)

/-- Total real-valued form of `Financials.calculate_pmt`, used inside the
engine embedding; it agrees with the `Option` version whenever the latter is
defined (see `calculate_pmt_eq_pmtF`). -/
def pmtF (principal annual_rate : ℝ) (years : ℤ) : ℝ :=
  if years ≤ 0 ∨ principal ≤ 0 then 0
  else if annual_rate = 0 then principal / ((years : ℝ) * 12)
  else principal * ((annual_rate / 12 / 100) * (1 + annual_rate / 12 / 100) ^ (years * 12)) /
    ((1 + annual_rate / 12 / 100) ^ (years * 12) - 1)

/-- Total real-valued form of `Financials.get_remaining_balance`, used inside
the engine embedding; it agrees with the `Option` version whenever the latter
is defined (see `get_remaining_balance_eq_balF`). -/
def balF (principal annual_rate : ℝ) (years months_paid : ℤ) : ℝ :=
  if months_paid = 0 then principal
  else if annual_rate = 0 then
    principal - principal / ((years : ℝ) * 12) * (months_paid : ℝ)
  else principal *
    (((1 + annual_rate / 12 / 100) ^ (years * 12) - (1 + annual_rate / 12 / 100) ^ months_paid) /
      ((1 + annual_rate / 12 / 100) ^ (years * 12) - 1))

/-! ## The vectorized engine of `src/public/main.py` (`run_projection`)

The loop is path-parallel with no cross-path interaction, so a run is embedded
as one per-path recurrence applied to each row of the growth matrices. -/

/-- Parameter record for `run_projection`.  Field defaults are the ones
`params.get` supplies in the source. -/
structure PParams where
  home_price : ℝ := 0
  down_payment_amount : ℝ := 0
  initial_rate : ℝ := 0
  property_tax_rate : ℝ := 0
  insurance_rate : ℝ := 0
  hoa_fees : ℝ := 0
  closing_costs_pct : ℝ := 0
  stock_growth : ℝ := 0
  stock_volatility : ℝ := 15
  home_price_growth : ℝ := 0
  home_volatility : ℝ := 5
  rent_growth : ℝ := 0
  rent_volatility : ℝ := 5
  current_rent : ℝ := 0
  refinance_year : ℤ := 0
  refinance_rate : ℝ := 0
  refinance_costs : ℝ := 0
  move_to_larger_year : ℤ := 0
  new_rent_today : ℝ := 0

def loanAmount (p : PParams) : ℝ := p.home_price - p.down_payment_amount

def refiMonth (p : PParams) : ℤ := p.refinance_year * 12

/-- `base_pmt = Financials.calculate_pmt(loan_amount, initial_rate, 30)`. -/
def basePmt (p : PParams) : ℝ := pmtF (loanAmount p) p.initial_rate 30

/-- `new_pmt = Financials.calculate_pmt(rem_bal, refi_rate, 30 - refi_year)`
with `rem_bal` evaluated at the original rate and term at month `refi_year*12`. -/
def newPmt (p : PParams) : ℝ :=
  pmtF (balF (loanAmount p) p.initial_rate 30 (refiMonth p)) p.refinance_rate
    (30 - p.refinance_year)

/-- Entry `idx` of the `monthly_payments` schedule (used during month `idx+1`):
the base payment, overwritten from index `refi_month` on when a refinance in
years 1..29 is configured. -/
def monthlyPaymentAt (p : PParams) (idx : ℕ) : ℝ :=
  if 0 < p.refinance_year ∧ p.refinance_year < 30 ∧ refiMonth p ≤ (idx : ℤ) then newPmt p
  else basePmt p

/-- Entry `idx` of the `rent_base_schedule`. -/
def rentBaseAt (p : PParams) (idx : ℕ) : ℝ :=
  if 0 < p.move_to_larger_year ∧ p.move_to_larger_year < 30 ∧
      p.move_to_larger_year * 12 ≤ (idx : ℤ) then p.new_rent_today
  else p.current_rent

/-- The interest rate used during loop month `m`: the refinance rate only for
`m > refi_month`. -/
def currRate (p : PParams) (m : ℕ) : ℝ :=
  if 0 < p.refinance_year ∧ refiMonth p < (m : ℤ) then p.refinance_rate / 100
  else p.initial_rate / 100

/-- Per-path, per-month state of `run_projection`: home value, loan balance,
buy-side investments, rent-side investments, cumulative rent inflation. -/
structure PState where
  hv : ℝ
  lb : ℝ
  bi : ℝ
  ri : ℝ
  cri : ℝ

/-- All quantities computed during one loop month. -/
structure PMonth where
  next : PState
  pmt : ℝ
  interest : ℝ
  principal : ℝ
  tax : ℝ
  ins : ℝ
  rent : ℝ
  costDiff : ℝ

/-- One iteration (`m` from 1 to 360) of the main simulation loop of
`run_projection`, for one path whose monthly growth factors are `sf`, `hf`,
`rf` (stock, home, rent). -/
def pubStepFull (p : PParams) (sf hf rf : ℕ → ℝ) (m : ℕ) (s : PState) : PMonth :=
  let hv' := s.hv * hf (m - 1)
  let cri' := s.cri * rf (m - 1)
  let rent := rentBaseAt p (m - 1) * cri'
  let rate := currRate p m
  let pmt := monthlyPaymentAt p (m - 1)
  let interest := s.lb * (rate / 12)
  let principal := pmt - interest
  let lb' := max (s.lb - principal) 0
  let tax := hv' * (p.property_tax_rate / 100 / 12)
  let ins := hv' * (p.insurance_rate / 100 / 12)
  let cost := pmt + tax + ins + p.hoa_fees
  let diff := rent - cost
  let bi' := s.bi * sf (m - 1) + max 0 diff -
    (if 0 < p.refinance_year ∧ (m : ℤ) = refiMonth p then p.refinance_costs else 0)
  let ri' := s.ri * sf (m - 1) + max 0 (-diff)
  ⟨⟨hv', lb', bi', ri', cri'⟩, pmt, interest, principal, tax, ins, rent, diff⟩

/-- Month-0 state of `run_projection`. -/
def pubInit (p : PParams) : PState :=
  ⟨p.home_price, loanAmount p, 0,
    p.down_payment_amount + p.home_price * (p.closing_costs_pct / 100), 1⟩

/-- The per-path recurrence of `run_projection`. -/
def pubRun (p : PParams) (sf hf rf : ℕ → ℝ) : ℕ → PState
  | 0 => pubInit p
  | m + 1 => (pubStepFull p sf hf rf (m + 1) (pubRun p sf hf rf m)).next

/-- `generate_growth_matrices`: entry `(i, j)` of the produced matrix.  In
stochastic mode the normal draw `N(monthly_mean, monthly_vol)` is modelled as
`monthly_mean + monthly_vol * z i j` for an arbitrary standard-normal sample
matrix `z`; the deterministic branch ignores both the volatility and `z`. -/
def generate_growth (mean vol : ℝ) (is_mc : Bool) (z : ℕ → ℕ → ℝ) : ℕ → ℕ → ℝ :=
  if is_mc then fun i j => 1 + (mean / 100 / 12 + vol / 100 / Real.sqrt 12 * z i j)
  else fun _ _ => 1 + mean / 100 / 12

/-- Output of `run_projection`: the number of simulated paths and the state of
path `i` at month `m`. -/
structure RunOut where
  dims : ℕ
  state : ℕ → ℕ → PState

/-- `run_projection(params, is_mc, n_sims)` over the sample matrices
`zs`, `zh`, `zr` for the three growth processes. -/
def run_projection (p : PParams) (is_mc : Bool) (n_sims : ℕ)
    (zs zh zr : ℕ → ℕ → ℝ) : RunOut :=
  { dims := if is_mc then n_sims else 1
    state := fun i m =>
      pubRun p (fun j => generate_growth p.stock_growth p.stock_volatility is_mc zs i j)
        (fun j => generate_growth p.home_price_growth p.home_volatility is_mc zh i j)
        (fun j => generate_growth p.rent_growth p.rent_volatility is_mc zr i j) m }

/-- `buy_net_worth = home_equity + buy_investments`. -/
def buyNetWorth (o : RunOut) (i m : ℕ) : ℝ :=
  ((o.state i m).hv - (o.state i m).lb) + (o.state i m).bi

/-- `rent_net_worth = rent_investments`. -/
def rentNetWorth (o : RunOut) (i m : ℕ) : ℝ := (o.state i m).ri

/-- The deterministic (single path, mean factors) run, as `analyze_scenarios`
invokes it. -/
def detOut (p : PParams) : RunOut :=
  run_projection p false 1 (fun _ _ => 0) (fun _ _ => 0) (fun _ _ => 0)

/-- State of the deterministic run at month `m`. -/
def detState (p : PParams) (m : ℕ) : PState := (detOut p).state 0 m

/-- `buy_wins_pct` of `analyze_scenarios`: the share (in percent) of the 2000
Monte-Carlo paths whose final buy net worth strictly exceeds the final rent
net worth. -/
def buy_win_pct (p : PParams) (zs zh zr : ℕ → ℕ → ℝ) : ℝ :=
  (((Finset.range 2000).filter fun i =>
      rentNetWorth (run_projection p true 2000 zs zh zr) i 360 <
        buyNetWorth (run_projection p true 2000 zs zh zr) i 360).card : ℝ) / 2000 * 100

/-- Deterministic stock factor sequence (every entry `1 + mean/100/12`). -/
def detSF (p : PParams) : ℕ → ℝ := fun _ => 1 + p.stock_growth / 100 / 12

/-- Deterministic home-price factor sequence. -/
def detHF (p : PParams) : ℕ → ℝ := fun _ => 1 + p.home_price_growth / 100 / 12

/-- Deterministic rent factor sequence. -/
def detRF (p : PParams) : ℕ → ℝ := fun _ => 1 + p.rent_growth / 100 / 12

/-- A parameter record with every volatility zero (all else defaulted). -/
def pZeroVol : PParams :=
  { stock_volatility := 0, home_volatility := 0, rent_volatility := 0 }

/-- Concrete refinance scenario used by the C6 counterexample and witness:
a 360000 zero-rate loan refinanced in year 29 at a (huge) 1200% rate. -/
def p6w : PParams :=
  { home_price := 360000, initial_rate := 0, refinance_year := 29, refinance_rate := 1200 }

/-- The all-defaults parameter record (every `params.get` default). -/
def pDef : PParams := {}

/-- Scenario for the C8 counterexample: a fully cash-bought home (loan 0) and
a negative mean stock growth of -12% a year. -/
def p8w : PParams :=
  { home_price := 100, down_payment_amount := 100, stock_growth := -12 }

/-! ## The loop engine of `src/main.py` (`rent_vs_buy_analysis`) -/

/-- Total real-valued form of `calculate_monthly_payment` (`src/main.py`). -/
def srcPmtF (principal rate : ℝ) (years : ℤ) : ℝ :=
  if years ≤ 0 then principal
  else if rate = 0 then principal / ((years : ℝ) * 12)
  else if (years * 12 : ℤ) = 0 then principal
  else principal * ((rate / 12) * (1 + rate / 12) ^ (years * 12)) /
    ((1 + rate / 12) ^ (years * 12) - 1)

/-- Total real-valued form of `calculate_remaining_balance` (`src/main.py`). -/
def srcBalF (principal rate : ℝ) (years months_paid : ℤ) : ℝ :=
  if rate = 0 then principal * (1 - (months_paid : ℝ) / ((years : ℝ) * 12))
  else principal * (1 + rate / 12) ^ months_paid -
    srcPmtF principal rate years * ((1 + rate / 12) ^ months_paid - 1) / (rate / 12)

/-- Parameter record of `rent_vs_buy_analysis`; defaults are the `params.get`
defaults of the source. -/
structure SrcParams where
  home_price : ℝ := 0
  down_payment_pct : ℝ := 0
  initial_rate : ℝ := 0
  current_rent : ℝ := 0
  home_price_growth : ℝ := 0
  rent_growth : ℝ := 0
  stock_growth : ℝ := 0
  hoa_fees : ℝ := 0
  property_tax_rate : ℝ := 0
  insurance_rate : ℝ := 0
  closing_costs_pct : ℝ := 0
  refinance_year : ℤ := 0
  refinance_rate : ℝ := 0
  refinance_costs : ℝ := 0
  move_to_larger_year : ℤ := 0
  new_rent_today : ℝ := 0

/-- Percentage-to-decimal extraction performed at the top of
`rent_vs_buy_analysis`. -/
def SrcParams.rate0 (q : SrcParams) : ℝ := q.initial_rate / 100

def SrcParams.hpg (q : SrcParams) : ℝ := q.home_price_growth / 100

def SrcParams.rg (q : SrcParams) : ℝ := q.rent_growth / 100

def SrcParams.sg (q : SrcParams) : ℝ := q.stock_growth / 100

def SrcParams.ptr (q : SrcParams) : ℝ := q.property_tax_rate / 100

def SrcParams.ir (q : SrcParams) : ℝ := q.insurance_rate / 100

def SrcParams.rrate (q : SrcParams) : ℝ := q.refinance_rate / 100

def SrcParams.downPayment (q : SrcParams) : ℝ := q.home_price * (q.down_payment_pct / 100)

def SrcParams.initialLoan (q : SrcParams) : ℝ := q.home_price - q.downPayment

def SrcParams.closingCosts (q : SrcParams) : ℝ := q.home_price * (q.closing_costs_pct / 100)

/-- `current_home_value = home_price * (1 + home_price_growth) ** (month / 12)`
(a real-exponent power in the source). -/
def srcHomeValue (q : SrcParams) (m : ℕ) : ℝ :=
  q.home_price * (1 + q.hpg) ^ ((m : ℝ) / 12)

/-- Mutable state of the monthly loop of `rent_vs_buy_analysis` (the fields
that feed back into later months; yearly accumulators are outputs only). -/
structure MState where
  balance : ℝ
  rate : ℝ
  pmt : ℝ
  termYears : ℤ
  refinanced : Bool
  moved : Bool
  moveMonth : ℕ
  baseRentAfterMove : ℝ
  propTaxMonthly : ℝ
  buyInv : ℝ
  rentInv : ℝ

/-- Guard of the one-time refinance block (`year = month // 12`). -/
def srcRefiCond (q : SrcParams) (m : ℕ) (s : MState) : Prop :=
  0 < q.refinance_year ∧ q.refinance_year ≤ ((m / 12 : ℕ) : ℤ) ∧ s.refinanced = false

/-- The refinance block: reset the balance to the closed-form remainder of the
original loan at month `m` plus the refinance costs, switch rate and term, and
recompute the payment. -/
def srcRefi (q : SrcParams) (m : ℕ) (s : MState) : MState :=
  if srcRefiCond q m s then
    { s with
      balance := srcBalF q.initialLoan q.rate0 30 (m : ℤ) + q.refinance_costs,
      rate := q.rrate,
      termYears := 30 - ((m / 12 : ℕ) : ℤ),
      pmt := srcPmtF (srcBalF q.initialLoan q.rate0 30 (m : ℤ) + q.refinance_costs)
        q.rrate (30 - ((m / 12 : ℕ) : ℤ)),
      refinanced := true }
  else s

/-- Guard of the one-time move-to-larger block. -/
def srcMoveCond (q : SrcParams) (m : ℕ) (s : MState) : Prop :=
  0 < q.move_to_larger_year ∧ q.move_to_larger_year ≤ ((m / 12 : ℕ) : ℤ) ∧ s.moved = false

/-- The move block: fix the new base rent (inflated to move time) and record
the move month. -/
def srcMove (q : SrcParams) (m : ℕ) (s : MState) : MState :=
  if srcMoveCond q m s then
    { s with
      moved := true
      moveMonth := m
      baseRentAfterMove := q.new_rent_today * (1 + q.rg) ^ ((m : ℝ) / 12) }
  else s

/-- `current_monthly_rent` for month `m`. -/
def srcRent (q : SrcParams) (m : ℕ) (s : MState) : ℝ :=
  if s.moved = true then
    s.baseRentAfterMove * (1 + q.rg) ^ (((m - s.moveMonth : ℕ) : ℝ) / 12)
  else q.current_rent * (1 + q.rg) ^ ((m : ℝ) / 12)

/-- All quantities charged during one loop month of `rent_vs_buy_analysis`. -/
structure SMonth where
  next : MState
  payment : ℝ
  interest : ℝ
  principal : ℝ
  tax : ℝ
  insurance : ℝ
  rent : ℝ

/-- One iteration (`month` from 1 to 360) of the loop of
`rent_vs_buy_analysis`. -/
def srcStepFull (q : SrcParams) (m : ℕ) (s : MState) : SMonth :=
  let s2 := srcMove q m (srcRefi q m s)
  let hv := srcHomeValue q m
  let rent := srcRent q m s2
  let interest0 := s2.balance * (s2.rate / 12)
  let insurance := hv * q.ir / 12
  let payment := if s2.balance ≤ 0 then 0 else s2.pmt
  let interest := if s2.balance ≤ 0 then 0 else interest0
  let principal := if s2.balance ≤ 0 then 0 else s2.pmt - interest0
  let buyCost := payment + s.propTaxMonthly + insurance + q.hoa_fees
  let rentInv1 := s.rentInv * (1 + q.sg / 12)
  let buyInv1 := s.buyInv * (1 + q.sg / 12)
  let diff := buyCost - rent
  ⟨{ s2 with
      balance := s2.balance - principal,
      pmt := payment,
      rentInv := if 0 < diff then rentInv1 + diff else rentInv1,
      buyInv := if 0 < diff then buyInv1 else buyInv1 + |diff|,
      propTaxMonthly := if m % 12 = 0 then hv * q.ptr / 12 else s.propTaxMonthly },
    payment, interest, principal, s.propTaxMonthly, insurance, rent⟩

/-- Initial (month 0) state of `rent_vs_buy_analysis`. -/
def srcInit (q : SrcParams) : MState :=
  { balance := q.initialLoan, rate := q.rate0,
    pmt := srcPmtF q.initialLoan q.rate0 30, termYears := 30,
    refinanced := false, moved := false, moveMonth := 0, baseRentAfterMove := 0,
    propTaxMonthly := q.home_price * q.ptr / 12,
    buyInv := 0, rentInv := q.downPayment + q.closingCosts }

/-- The monthly recurrence of `rent_vs_buy_analysis`. -/
def srcRun (q : SrcParams) : ℕ → MState
  | 0 => srcInit q
  | m + 1 => (srcStepFull q (m + 1) (srcRun q m)).next

/-- The all-defaults `src/main.py` parameter record. -/
def qDef : SrcParams := {}

/-- Scenario for the C5 counterexample: a fully cash-bought home (loan 0) with
a refinance configured in year 1 whose 500 of costs are rolled into the
refinanced balance. -/
def q5w : SrcParams :=
  { home_price := 100, down_payment_pct := 100, refinance_year := 1, refinance_costs := 500 }

/-- Scenario for the C7 counterexample: a 100-priced home doubling in value
every year (100% growth) with a 12% property-tax rate. -/
def q7w : SrcParams :=
  { home_price := 100, home_price_growth := 100, property_tax_rate := 12 }

/-- The loan-balance recurrence of `run_projection` on its own: the balance
column depends only on the payment schedule and the active rate, not on the
growth paths, so it can be studied as a scalar sequence. -/
def pubLB (p : PParams) : ℕ → ℝ
  | 0 => loanAmount p
  | m + 1 => max (pubLB p m -
      (monthlyPaymentAt p m - pubLB p m * (currRate p (m + 1) / 12))) 0

/-- `cost_difference = total_monthly_buy_cost - current_monthly_rent` of a
`rent_vs_buy_analysis` month, read off the month's charges. -/
def srcCostDiff (q : SrcParams) (m : ℕ) (s : MState) : ℝ :=
  ((srcStepFull q m s).payment + s.propTaxMonthly +
      (srcStepFull q m s).insurance + q.hoa_fees) - (srcStepFull q m s).rent

/-- Concrete `src/main.py` refinance scenario used by the C6 witness: a
360000 zero-rate loan refinanced in year 1 with 500 of costs. -/
def q6w : SrcParams :=
  { home_price := 360000, refinance_year := 1, refinance_costs := 500 }

theorem one_lt_base {r : ℝ} (hr : 0 < r) : 1 < 1 + r / 12 / 100 := by
  have : 0 < r / 12 / 100 := by positivity
  linarith

theorem den_pos {r : ℝ} (hr : 0 < r) {n : ℤ} (hn : 0 < n) :
    0 < (1 + r / 12 / 100) ^ n - 1 :=
  sub_pos.mpr (one_lt_zpow₀ (one_lt_base hr) hn)

/-- Agreement of the `Option`-valued payment with its total form on the
non-negative-rate domain. -/
theorem calculate_pmt_eq_pmtF (P r : ℝ) (y : ℤ) (hr : 0 ≤ r) :
    Financials.calculate_pmt P r y = some (pmtF P r y) := by
  unfold Financials.calculate_pmt pmtF
  by_cases h0 : y ≤ 0 ∨ P ≤ 0
  · simp [h0]
  · by_cases hrz : r = 0
    · simp [h0, hrz]
    · have hy : 0 < y := by
        rcases not_or.mp h0 with ⟨hy, _⟩; omega
      have hrpos : 0 < r := lt_of_le_of_ne hr (Ne.symm hrz)
      have hden : (1 + r / 12 / 100) ^ (y * 12) - 1 ≠ 0 :=
        ne_of_gt (den_pos hrpos (by omega))
      simp [h0, hrz, hden]

/-- Agreement of the `Option`-valued remaining balance with its total form on
the non-negative-rate, positive-term, non-negative-months domain. -/
theorem get_remaining_balance_eq_balF (P r : ℝ) (y m : ℤ)
    (hr : 0 ≤ r) (hy : 0 < y) (hm : 0 ≤ m) :
    Financials.get_remaining_balance P r y m = some (balF P r y m) := by
  unfold Financials.get_remaining_balance balF
  by_cases hm0 : m = 0
  · simp [hm0]
  · by_cases hrz : r = 0
    · have hn : ((y * 12 : ℤ) : ℝ) ≠ 0 := by
        exact_mod_cast (by omega : (y * 12 : ℤ) ≠ 0)
      simp [hm0, hrz, hn]
      omega
    · have hrpos : 0 < r := lt_of_le_of_ne hr (Ne.symm hrz)
      have hbase : (1 : ℝ) + r / 12 / 100 ≠ 0 := by
        have := one_lt_base hrpos; linarith
      have hden : (1 + r / 12 / 100) ^ (y * 12) - 1 ≠ 0 :=
        ne_of_gt (den_pos hrpos (by omega))
      have hguard : ¬(1 + r / 12 / 100 = 0 ∧ (y * 12 < 0 ∨ m < 0)) := by
        rintro ⟨h1, _⟩; exact hbase h1
      simp [hm0, hrz, hguard, hden]

theorem one_lt_base' {r : ℝ} (hr : 0 < r) : 1 < 1 + r / 12 := by
  have : 0 < r / 12 := by positivity
  linarith

theorem den_pos' {r : ℝ} (hr : 0 < r) {n : ℤ} (hn : 0 < n) :
    0 < (1 + r / 12) ^ n - 1 :=
  sub_pos.mpr (one_lt_zpow₀ (one_lt_base' hr) hn)

/-- In the zero-rate branch the balance is the straight line. -/
theorem balF_zero_rate (P : ℝ) (y m : ℤ) :
    balF P 0 y m = P - P / ((y : ℝ) * 12) * (m : ℝ) := by
  unfold balF
  by_cases hm : m = 0 <;> simp [hm]

/-- For a positive rate the balance is the closed amortization form, also at
`m = 0` where the source short-circuits. -/
theorem balF_pos_rate (P r : ℝ) (y m : ℤ) (hr : 0 < r) (hy : 0 < y) :
    balF P r y m = P * (((1 + r / 12 / 100) ^ (y * 12) - (1 + r / 12 / 100) ^ m) /
      ((1 + r / 12 / 100) ^ (y * 12) - 1)) := by
  unfold balF
  have hrz : r ≠ 0 := ne_of_gt hr
  by_cases hm : m = 0
  · subst hm
    have hden : (1 + r / 12 / 100) ^ (y * 12) - 1 ≠ 0 := ne_of_gt (den_pos hr (by omega))
    rw [if_pos rfl, zpow_zero, div_self hden, mul_one]
  · simp [hm, hrz]

theorem balF_nonneg (P r : ℝ) (y m : ℤ) (hP : 0 ≤ P) (hr : 0 ≤ r) (hy : 0 < y)
    (hm0 : 0 ≤ m) (hm : m ≤ y * 12) : 0 ≤ balF P r y m := by
  rcases hr.eq_or_lt with hrz | hrpos
  · rw [← hrz, balF_zero_rate]
    have h12y : (0 : ℝ) < (y : ℝ) * 12 := by
      have : (0 : ℝ) < (y : ℝ) := by exact_mod_cast hy
      linarith
    have hdiv : 0 ≤ P / ((y : ℝ) * 12) := div_nonneg hP h12y.le
    have hmle : (m : ℝ) ≤ (y : ℝ) * 12 := by exact_mod_cast hm
    have hcancel : P / ((y : ℝ) * 12) * ((y : ℝ) * 12) = P :=
      div_mul_cancel₀ P (ne_of_gt h12y)
    nlinarith [mul_le_mul_of_nonneg_left hmle hdiv]
  · rw [balF_pos_rate P r y m hrpos hy]
    have hA : (1 : ℝ) ≤ 1 + r / 12 / 100 := (one_lt_base hrpos).le
    have hnum : (1 + r / 12 / 100) ^ m ≤ (1 + r / 12 / 100) ^ (y * 12) :=
      zpow_le_zpow_right₀ hA hm
    exact mul_nonneg hP (div_nonneg (sub_nonneg.mpr hnum) (den_pos hrpos (by omega)).le)

theorem balF_anti (P r : ℝ) (y : ℤ) (hP : 0 ≤ P) (hr : 0 ≤ r) (hy : 0 < y)
    (m₁ m₂ : ℤ) (h12 : m₁ ≤ m₂) :
    balF P r y m₂ ≤ balF P r y m₁ := by
  rcases hr.eq_or_lt with hrz | hrpos
  · rw [← hrz, balF_zero_rate, balF_zero_rate]
    have h12y : (0 : ℝ) ≤ (y : ℝ) * 12 := by
      have : (0 : ℝ) < (y : ℝ) := by exact_mod_cast hy
      linarith
    have hdiv : 0 ≤ P / ((y : ℝ) * 12) := div_nonneg hP h12y
    have hmle : (m₁ : ℝ) ≤ (m₂ : ℝ) := by exact_mod_cast h12
    nlinarith [mul_le_mul_of_nonneg_left hmle hdiv]
  · rw [balF_pos_rate P r y m₁ hrpos hy, balF_pos_rate P r y m₂ hrpos hy]
    have hA : (1 : ℝ) ≤ 1 + r / 12 / 100 := (one_lt_base hrpos).le
    have hmono : (1 + r / 12 / 100) ^ m₁ ≤ (1 + r / 12 / 100) ^ m₂ :=
      zpow_le_zpow_right₀ hA h12
    have hden : 0 < (1 + r / 12 / 100) ^ (y * 12) - 1 := den_pos hrpos (by omega)
    gcongr

theorem balF_at_term (P r : ℝ) (y : ℤ) (hr : 0 ≤ r) (hy : 0 < y) :
    balF P r y (y * 12) = 0 := by
  rcases hr.eq_or_lt with hrz | hrpos
  · rw [← hrz, balF_zero_rate]
    have hyne : ((y : ℝ) * 12) ≠ 0 := by
      have : (0 : ℝ) < (y : ℝ) := by exact_mod_cast hy
      positivity
    push_cast
    field_simp
  · rw [balF_pos_rate P r y (y * 12) hrpos hy]
    simp

/-- The balance is linear in the principal. -/
theorem balF_neg_principal (P r : ℝ) (y m : ℤ) :
    balF (-P) r y m = -balF P r y m := by
  unfold balF
  split_ifs <;> ring

theorem balF_nonpos (P r : ℝ) (y m : ℤ) (hP : P ≤ 0) (hr : 0 ≤ r) (hy : 0 < y)
    (hm0 : 0 ≤ m) (hm : m ≤ y * 12) : balF P r y m ≤ 0 := by
  have h := balF_nonneg (-P) r y m (by linarith) hr hy hm0 hm
  rw [balF_neg_principal] at h
  linarith

/-- Strictly positive balance before the end of the term. -/
theorem balF_pos_before_term (P r : ℝ) (y m : ℤ) (hP : 0 < P) (hr : 0 ≤ r)
    (hy : 0 < y) (hm0 : 0 ≤ m) (hm : m < y * 12) : 0 < balF P r y m := by
  rcases hr.eq_or_lt with hrz | hrpos
  · rw [← hrz, balF_zero_rate]
    have hN : (0 : ℝ) < (y : ℝ) * 12 := by
      have : (0 : ℝ) < (y : ℝ) := by exact_mod_cast hy
      linarith
    have hmN : (m : ℝ) < (y : ℝ) * 12 := by exact_mod_cast hm
    have hdiv : 0 < P / ((y : ℝ) * 12) := div_pos hP hN
    have hcancel : P / ((y : ℝ) * 12) * ((y : ℝ) * 12) = P :=
      div_mul_cancel₀ P (ne_of_gt hN)
    nlinarith [mul_lt_mul_of_pos_left hmN hdiv]
  · rw [balF_pos_rate P r y m hrpos hy]
    have hnum : (1 + r / 12 / 100) ^ m < (1 + r / 12 / 100) ^ (y * 12) :=
      (zpow_lt_zpow_iff_right₀ (one_lt_base hrpos)).mpr hm
    exact mul_pos hP (div_pos (sub_pos.mpr hnum) (den_pos hrpos (by omega)))

/-- One engine month moves the closed-form balance one step along: this is the
amortization identity the monthly loop relies on. -/
theorem balF_recurrence (P r : ℝ) (y m : ℤ) (hP : 0 < P) (hr : 0 ≤ r) (hy : 0 < y) :
    balF P r y m - (pmtF P r y - balF P r y m * (r / 100 / 12)) = balF P r y (m + 1) := by
  have hne : ¬(y ≤ 0 ∨ P ≤ 0) := by
    push_neg
    exact ⟨hy, hP⟩
  rcases hr.eq_or_lt with hrz | hrpos
  · rw [← hrz, balF_zero_rate, balF_zero_rate]
    unfold pmtF
    rw [if_neg hne, if_pos rfl]
    push_cast
    ring
  · have hrz : r ≠ 0 := ne_of_gt hrpos
    have hA0 : (1 : ℝ) + r / 12 / 100 ≠ 0 := by
      have := one_lt_base hrpos
      linarith
    have hden : (1 + r / 12 / 100) ^ (y * 12) - 1 ≠ 0 :=
      ne_of_gt (den_pos hrpos (by omega))
    rw [balF_pos_rate P r y m hrpos hy, balF_pos_rate P r y (m + 1) hrpos hy]
    unfold pmtF
    rw [if_neg hne, if_neg hrz, zpow_add_one₀ hA0]
    have hcomm : r / 100 / 12 = r / 12 / 100 := by ring
    rw [hcomm]
    set a := (1 + r / 12 / 100) ^ m with ha
    set b := (1 + r / 12 / 100) ^ (y * 12) with hb
    field_simp
    ring

/-- The `src/main.py` payment agrees with its total form on non-negative
rates. -/
theorem calculate_monthly_payment_eq_srcPmtF (P r : ℝ) (y : ℤ) (hr : 0 ≤ r) :
    calculate_monthly_payment P r y = some (srcPmtF P r y) := by
  unfold calculate_monthly_payment srcPmtF
  by_cases h0 : y ≤ 0
  · simp [h0]
  · by_cases hrz : r = 0
    · simp [h0, hrz]
    · have hrpos : 0 < r := lt_of_le_of_ne hr (Ne.symm hrz)
      have hden : (1 + r / 12) ^ (y * 12) - 1 ≠ 0 :=
        ne_of_gt (den_pos' hrpos (by omega))
      have hnum : ¬(y * 12 : ℤ) = 0 := by omega
      simp [h0, hrz, hnum, hden]

/-- The `src/main.py` balance agrees with its total form whenever the term is
positive and the inputs are in the stated domain. -/
theorem calculate_remaining_balance_eq_srcBalF (P r : ℝ) (y m : ℤ)
    (hr : 0 ≤ r) (hy : 0 < y) (hm : 0 ≤ m) :
    calculate_remaining_balance P r y m = some (srcBalF P r y m) := by
  unfold calculate_remaining_balance srcBalF
  by_cases hrz : r = 0
  · have hn : ((y : ℝ) * 12) ≠ 0 := by
      have : (0 : ℝ) < (y : ℝ) := by exact_mod_cast hy
      positivity
    simp [hrz, hn]
  · have hrpos : 0 < r := lt_of_le_of_ne hr (Ne.symm hrz)
    have hguard : ¬(1 + r / 12 = 0 ∧ m < 0) := by
      rintro ⟨h1, -⟩
      have := one_lt_base' hrpos
      linarith
    rw [if_neg hrz, if_neg hrz, calculate_monthly_payment_eq_srcPmtF P r y hr]
    simp [hguard]

/-- For a positive rate the `src/main.py` balance equals the same closed
amortization form as the public one (with the monthly rate `r/12`). -/
theorem srcBalF_closed (P r : ℝ) (y m : ℤ) (hr : 0 < r) (hy : 0 < y) :
    srcBalF P r y m = P * (((1 + r / 12) ^ (y * 12) - (1 + r / 12) ^ m) /
      ((1 + r / 12) ^ (y * 12) - 1)) := by
  have hrz : r ≠ 0 := ne_of_gt hr
  have hr12 : r / 12 ≠ 0 := by positivity
  have hden : (1 + r / 12) ^ (y * 12) - 1 ≠ 0 := ne_of_gt (den_pos' hr (by omega))
  unfold srcBalF srcPmtF
  rw [if_neg hrz, if_neg (not_le.mpr hy), if_neg hrz, if_neg (by omega : ¬(y * 12 : ℤ) = 0)]
  set a := (1 + r / 12) ^ m with ha
  set b := (1 + r / 12) ^ (y * 12) with hb
  field_simp
  ring

theorem srcBalF_nonneg (P r : ℝ) (y m : ℤ) (hP : 0 ≤ P) (hr : 0 ≤ r) (hy : 0 < y)
    (hm0 : 0 ≤ m) (hm : m ≤ y * 12) : 0 ≤ srcBalF P r y m := by
  rcases hr.eq_or_lt with hrz | hrpos
  · rw [← hrz]
    unfold srcBalF
    rw [if_pos rfl]
    have hN : (0 : ℝ) < (y : ℝ) * 12 := by
      have : (0 : ℝ) < (y : ℝ) := by exact_mod_cast hy
      linarith
    have hmN : (m : ℝ) ≤ (y : ℝ) * 12 := by exact_mod_cast hm
    have hmm : (0 : ℝ) ≤ (m : ℝ) := by exact_mod_cast hm0
    have hfrac : (m : ℝ) / ((y : ℝ) * 12) ≤ 1 := (div_le_one hN).mpr hmN
    exact mul_nonneg hP (by linarith)
  · rw [srcBalF_closed P r y m hrpos hy]
    have hA : (1 : ℝ) ≤ 1 + r / 12 := (one_lt_base' hrpos).le
    have hnum : (1 + r / 12) ^ m ≤ (1 + r / 12) ^ (y * 12) := zpow_le_zpow_right₀ hA hm
    exact mul_nonneg hP (div_nonneg (sub_nonneg.mpr hnum) (den_pos' hrpos (by omega)).le)

theorem srcBalF_anti (P r : ℝ) (y : ℤ) (hP : 0 ≤ P) (hr : 0 ≤ r) (hy : 0 < y)
    (m₁ m₂ : ℤ) (h12 : m₁ ≤ m₂) : srcBalF P r y m₂ ≤ srcBalF P r y m₁ := by
  rcases hr.eq_or_lt with hrz | hrpos
  · rw [← hrz]
    unfold srcBalF
    rw [if_pos rfl, if_pos rfl]
    have hN : (0 : ℝ) < (y : ℝ) * 12 := by
      have : (0 : ℝ) < (y : ℝ) := by exact_mod_cast hy
      linarith
    have hmle : (m₁ : ℝ) ≤ (m₂ : ℝ) := by exact_mod_cast h12
    have hmono : (m₁ : ℝ) / ((y : ℝ) * 12) ≤ (m₂ : ℝ) / ((y : ℝ) * 12) := by
      gcongr
    have hsub : 1 - (m₂ : ℝ) / ((y : ℝ) * 12) ≤ 1 - (m₁ : ℝ) / ((y : ℝ) * 12) := by
      linarith
    exact mul_le_mul_of_nonneg_left hsub hP
  · rw [srcBalF_closed P r y m₁ hrpos hy, srcBalF_closed P r y m₂ hrpos hy]
    have hA : (1 : ℝ) ≤ 1 + r / 12 := (one_lt_base' hrpos).le
    have hmono : (1 + r / 12) ^ m₁ ≤ (1 + r / 12) ^ m₂ := zpow_le_zpow_right₀ hA h12
    have hden : 0 < (1 + r / 12) ^ (y * 12) - 1 := den_pos' hrpos (by omega)
    gcongr

theorem srcBalF_at_term (P r : ℝ) (y : ℤ) (hr : 0 ≤ r) (hy : 0 < y) :
    srcBalF P r y (y * 12) = 0 := by
  rcases hr.eq_or_lt with hrz | hrpos
  · rw [← hrz]
    unfold srcBalF
    rw [if_pos rfl]
    have hN : ((y : ℝ) * 12) ≠ 0 := by
      have : (0 : ℝ) < (y : ℝ) := by exact_mod_cast hy
      positivity
    have hcast : ((y * 12 : ℤ) : ℝ) = (y : ℝ) * 12 := by push_cast; ring
    rw [hcast, div_self hN]
    ring
  · rw [srcBalF_closed P r y (y * 12) hrpos hy]
    simp

/-- The `src/main.py` payment function is defined on the whole stated domain. -/
theorem calculate_monthly_payment_isSome (P r : ℝ) (y : ℤ) (hr : 0 ≤ r) :
    (calculate_monthly_payment P r y).isSome := by
  unfold calculate_monthly_payment
  by_cases h0 : y ≤ 0
  · simp [h0]
  · by_cases hrz : r = 0
    · simp [h0, hrz]
    · have hy : 0 < y := by omega
      have hrpos : 0 < r := lt_of_le_of_ne hr (Ne.symm hrz)
      have hden : (1 + r / 12) ^ (y * 12) - 1 ≠ 0 := ne_of_gt (den_pos' hrpos (by omega))
      have hnum : (y * 12 : ℤ) ≠ 0 := by omega
      simp [h0, hrz, hnum, hden]

/-- The `src/main.py` balance function is defined whenever the term is
positive. -/
theorem calculate_remaining_balance_isSome (P r : ℝ) (y m : ℤ)
    (hr : 0 ≤ r) (hy : 0 < y) (hm : 0 ≤ m) :
    (calculate_remaining_balance P r y m).isSome := by
  unfold calculate_remaining_balance
  by_cases hrz : r = 0
  · have hn : ((y : ℝ) * 12) ≠ 0 := by
      have : (0 : ℝ) < (y : ℝ) := by exact_mod_cast hy
      positivity
    simp [hrz, hn]
  · have hrpos : 0 < r := lt_of_le_of_ne hr (Ne.symm hrz)
    have hbase : ¬(1 + r / 12 = 0 ∧ m < 0) := by
      rintro ⟨h1, _⟩
      have := one_lt_base' hrpos
      linarith
    obtain ⟨v, hv⟩ := Option.isSome_iff_exists.mp (calculate_monthly_payment_isSome P r y hr)
    simp [hrz, hv, hbase]

/-- C1, amended.  The two payment functions never raise on the stated domain
(with `src/main.py` returning the principal, not zero, for a non-positive
term), and the two remaining-balance functions never raise as long as the term
is positive; a zero term makes the balance functions divide by zero (see the
counterexample). -/
theorem claim1_total_on_positive_term :
    (∀ (P r : ℝ) (y : ℤ), 0 ≤ P → 0 ≤ r →
      (Financials.calculate_pmt P r y).isSome ∧ (calculate_monthly_payment P r y).isSome) ∧
    (∀ (P r : ℝ) (y m : ℤ), 0 ≤ P → 0 ≤ r → 0 < y → 0 ≤ m →
      (Financials.get_remaining_balance P r y m).isSome ∧
        (calculate_remaining_balance P r y m).isSome) ∧
    (∀ (P r : ℝ) (y : ℤ), y ≤ 0 →
      Financials.calculate_pmt P r y = some 0 ∧ calculate_monthly_payment P r y = some P) := by
  refine ⟨fun P r y _ hr => ⟨?_, calculate_monthly_payment_isSome P r y hr⟩,
    fun P r y m _ hr hy hm => ⟨?_, calculate_remaining_balance_isSome P r y m hr hy hm⟩,
    fun P r y hy => ⟨?_, ?_⟩⟩
  · rw [calculate_pmt_eq_pmtF P r y hr]; rfl
  · rw [get_remaining_balance_eq_balF P r y m hr hy hm]; rfl
  · unfold Financials.calculate_pmt
    simp [hy]
  · unfold calculate_monthly_payment
    simp [hy]

/-- C1, counterexample: with a zero term both remaining-balance functions hit a
division by zero (`none` models Python's `ZeroDivisionError`), so the
mathematical core is not total at term zero. -/
theorem claim1_counterexample :
    Financials.get_remaining_balance 100 0 0 1 = none ∧
      calculate_remaining_balance 100 0 0 1 = none := by
  constructor <;>
    norm_num [Financials.get_remaining_balance, calculate_remaining_balance]

/-- C1, witness. -/
theorem claim1_witness :
    ((Financials.calculate_pmt 1 0 1).isSome ∧ (calculate_monthly_payment 1 0 1).isSome) ∧
    ((Financials.get_remaining_balance 1 0 1 0).isSome ∧
      (calculate_remaining_balance 1 0 1 0).isSome) ∧
    (Financials.calculate_pmt 1 0 0 = some 0 ∧ calculate_monthly_payment 1 0 0 = some 1) :=
  ⟨claim1_total_on_positive_term.1 1 0 1 (by norm_num) le_rfl,
   claim1_total_on_positive_term.2.1 1 0 1 0 (by norm_num) le_rfl (by norm_num) le_rfl,
   claim1_total_on_positive_term.2.2 1 0 0 le_rfl⟩

/-- C2, counterexample: the remaining balance is not floored at zero; paying a
1-year zero-rate loan of 100 for 24 months yields a balance of -100. -/
theorem claim2_counterexample :
    Financials.get_remaining_balance 100 0 1 24 = some (-100) ∧ (-100 : ℝ) < 0 := by
  norm_num [Financials.get_remaining_balance]

/-- C2, amended: both remaining-balance functions return a non-negative value
provided `months_paid` does not exceed the term (`m ≤ 12·years`); beyond the
term the result goes negative (see the counterexample), there is no flooring
in either function. -/
theorem claim2_nonneg_within_term (P r : ℝ) (y m : ℤ) (hP : 0 ≤ P) (hr : 0 ≤ r)
    (hy : 0 < y) (hm0 : 0 ≤ m) (hm : m ≤ y * 12) :
    (∃ b, Financials.get_remaining_balance P r y m = some b ∧ 0 ≤ b) ∧
    (∃ b, calculate_remaining_balance P r y m = some b ∧ 0 ≤ b) :=
  ⟨⟨balF P r y m, get_remaining_balance_eq_balF P r y m hr hy hm0,
      balF_nonneg P r y m hP hr hy hm0 hm⟩,
   ⟨srcBalF P r y m, calculate_remaining_balance_eq_srcBalF P r y m hr hy hm0,
      srcBalF_nonneg P r y m hP hr hy hm0 hm⟩⟩

/-- C2, witness. -/
theorem claim2_witness :
    (∃ b, Financials.get_remaining_balance 100 0 1 6 = some b ∧ 0 ≤ b) ∧
    (∃ b, calculate_remaining_balance 100 0 1 6 = some b ∧ 0 ≤ b) :=
  claim2_nonneg_within_term 100 0 1 6 (by norm_num) le_rfl (by norm_num)
    (by norm_num) (by norm_num)

/-- C3, counterexample: `calculate_monthly_payment` in `src/main.py` returns
the principal, not zero, when the term is non-positive. -/
theorem claim3_counterexample :
    calculate_monthly_payment 5 0 0 = some 5 ∧ (5 : ℝ) ≠ 0 := by
  norm_num [calculate_monthly_payment]

/-- C3, amended: the zero-contract holds for `Financials.calculate_pmt`
(`src/public/main.py`) on both degenerate conditions, while
`calculate_monthly_payment` (`src/main.py`) instead returns the principal
itself when the term is non-positive. -/
theorem claim3_degenerate_contract :
    (∀ (P r : ℝ) (y : ℤ), y ≤ 0 ∨ P ≤ 0 → Financials.calculate_pmt P r y = some 0) ∧
    (∀ (P r : ℝ) (y : ℤ), y ≤ 0 → calculate_monthly_payment P r y = some P) := by
  constructor
  · intro P r y h
    unfold Financials.calculate_pmt
    simp [h]
  · intro P r y h
    unfold calculate_monthly_payment
    simp [h]

/-- C3, witness. -/
theorem claim3_witness :
    Financials.calculate_pmt 7 3 0 = some 0 ∧ calculate_monthly_payment 7 3 0 = some 7 :=
  ⟨claim3_degenerate_contract.1 7 3 0 (Or.inl le_rfl),
   claim3_degenerate_contract.2 7 3 0 le_rfl⟩

/-- C4: for a positive principal, non-negative rate and positive term both
remaining-balance functions are non-increasing in the months paid and are
exactly zero at the end of the term (`m = 12·years`); `balF` and `srcBalF` are
the values the two source functions return on this domain. -/
theorem claim4_amortization_progress (P r : ℝ) (y : ℤ) (hP : 0 < P) (hr : 0 ≤ r)
    (hy : 0 < y) :
    ((∀ m₁ m₂ : ℤ, m₁ ≤ m₂ → balF P r y m₂ ≤ balF P r y m₁) ∧
      (∀ m : ℤ, 0 ≤ m → Financials.get_remaining_balance P r y m = some (balF P r y m)) ∧
      balF P r y (y * 12) = 0) ∧
    ((∀ m₁ m₂ : ℤ, m₁ ≤ m₂ → srcBalF P r y m₂ ≤ srcBalF P r y m₁) ∧
      (∀ m : ℤ, 0 ≤ m → calculate_remaining_balance P r y m = some (srcBalF P r y m)) ∧
      srcBalF P r y (y * 12) = 0) :=
  ⟨⟨fun m₁ m₂ h12 => balF_anti P r y hP.le hr hy m₁ m₂ h12,
    fun m hm => get_remaining_balance_eq_balF P r y m hr hy hm,
    balF_at_term P r y hr hy⟩,
   ⟨fun m₁ m₂ h12 => srcBalF_anti P r y hP.le hr hy m₁ m₂ h12,
    fun m hm => calculate_remaining_balance_eq_srcBalF P r y m hr hy hm,
    srcBalF_at_term P r y hr hy⟩⟩

/-- C4, witness. -/
theorem claim4_witness :
    (balF 100 0 1 12 ≤ balF 100 0 1 0 ∧
      Financials.get_remaining_balance 100 0 1 12 = some (balF 100 0 1 12) ∧
      balF 100 0 1 (1 * 12) = 0) ∧
    (srcBalF 100 0 1 12 ≤ srcBalF 100 0 1 0 ∧
      calculate_remaining_balance 100 0 1 12 = some (srcBalF 100 0 1 12) ∧
      srcBalF 100 0 1 (1 * 12) = 0) :=
  ⟨⟨(claim4_amortization_progress 100 0 1 (by norm_num) le_rfl (by norm_num)).1.1 0 12
      (by norm_num),
    (claim4_amortization_progress 100 0 1 (by norm_num) le_rfl (by norm_num)).1.2.1 12
      (by norm_num),
    (claim4_amortization_progress 100 0 1 (by norm_num) le_rfl (by norm_num)).1.2.2⟩,
   ⟨(claim4_amortization_progress 100 0 1 (by norm_num) le_rfl (by norm_num)).2.1 0 12
      (by norm_num),
    (claim4_amortization_progress 100 0 1 (by norm_num) le_rfl (by norm_num)).2.2.1 12
      (by norm_num),
    (claim4_amortization_progress 100 0 1 (by norm_num) le_rfl (by norm_num)).2.2.2⟩⟩

theorem detState_zero (p : PParams) : detState p 0 = pubInit p := rfl

theorem detState_succ (p : PParams) (m : ℕ) :
    detState p (m + 1) =
      (pubStepFull p (detSF p) (detHF p) (detRF p) (m + 1) (detState p m)).next := rfl

/-- Pointwise-equal growth factors give equal runs. -/
theorem pubRun_congr (p : PParams) (sf sf' hf hf' rf rf' : ℕ → ℝ)
    (hs : ∀ j, sf j = sf' j) (hh : ∀ j, hf j = hf' j) (hr : ∀ j, rf j = rf' j)
    (m : ℕ) : pubRun p sf hf rf m = pubRun p sf' hf' rf' m := by
  have hs' : sf = sf' := funext hs
  have hh' : hf = hf' := funext hh
  have hr' : rf = rf' := funext hr
  rw [hs', hh', hr']

/-- With zero volatility the stochastic growth factor is the deterministic
mean factor, whatever the sampled noise. -/
theorem generate_growth_zero_vol (mean : ℝ) (z : ℕ → ℕ → ℝ) (i j : ℕ) :
    generate_growth mean 0 true z i j = 1 + mean / 100 / 12 := by
  simp [generate_growth]

/-- The per-path recurrence never reads the volatility fields. -/
theorem pubRun_vol_irrel (p : PParams) (sv hvol rv : ℝ) (sf hf rf : ℕ → ℝ) (m : ℕ) :
    pubRun { p with stock_volatility := sv, home_volatility := hvol, rent_volatility := rv } sf hf rf m = pubRun p sf hf rf m := by
  induction m with
  | zero => rfl
  | succ k ih =>
      show (pubStepFull _ sf hf rf (k + 1) _).next = (pubStepFull _ sf hf rf (k + 1) _).next
      rw [ih]
      rfl

/-- Any deterministic invocation of `run_projection` equals the canonical one
with `n_sims = 1` and zero noise, whatever the volatility fields hold. -/
theorem run_projection_det_canonical (q : PParams) (a b c : ℝ) (N : ℕ)
    (x y z : ℕ → ℕ → ℝ) :
    run_projection { q with stock_volatility := a, home_volatility := b, rent_volatility := c } false N x y z =
      run_projection q false 1 (fun _ _ => 0) (fun _ _ => 0) (fun _ _ => 0) := by
  unfold run_projection
  congr 1
  funext i m
  exact (pubRun_vol_irrel q a b c _ _ _ m).trans
    (pubRun_congr q _ _ _ _ _ _ (fun j => rfl) (fun j => rfl) (fun j => rfl) m)

/-- C10: with `is_mc = False` the output of `run_projection` is independent of
the three volatility parameters, of `n_sims`, and of the random samples: the
deterministic run is a single path built from the means alone. -/
theorem claim10_det_independent_of_volatility (p : PParams)
    (sv hvol rv sv' hvol' rv' : ℝ) (n n' : ℕ) (zs zh zr zs' zh' zr' : ℕ → ℕ → ℝ) :
    run_projection
        { p with stock_volatility := sv, home_volatility := hvol, rent_volatility := rv }
        false n zs zh zr =
      run_projection
        { p with stock_volatility := sv', home_volatility := hvol', rent_volatility := rv' }
        false n' zs' zh' zr' :=
  (run_projection_det_canonical p sv hvol rv n zs zh zr).trans
    (run_projection_det_canonical p sv' hvol' rv' n' zs' zh' zr').symm

/-- C9: with all three volatilities zero, every sampled Monte-Carlo path
coincides with the deterministic run at every month (hence at every yearly
index), and the reported buy win rate is exactly 0% or exactly 100%. -/
theorem claim9_zero_volatility (p : PParams) (zs zh zr : ℕ → ℕ → ℝ)
    (h1 : p.stock_volatility = 0) (h2 : p.home_volatility = 0)
    (h3 : p.rent_volatility = 0) :
    (∀ i m, (run_projection p true 2000 zs zh zr).state i m = detState p m ∧
      buyNetWorth (run_projection p true 2000 zs zh zr) i m = buyNetWorth (detOut p) 0 m ∧
      rentNetWorth (run_projection p true 2000 zs zh zr) i m = rentNetWorth (detOut p) 0 m) ∧
    (buy_win_pct p zs zh zr = 0 ∨ buy_win_pct p zs zh zr = 100) := by
  have key : ∀ i m, (run_projection p true 2000 zs zh zr).state i m = detState p m := by
    intro i m
    show pubRun p _ _ _ m = pubRun p _ _ _ m
    apply pubRun_congr
    · intro j; rw [h1, generate_growth_zero_vol]; rfl
    · intro j; rw [h2, generate_growth_zero_vol]; rfl
    · intro j; rw [h3, generate_growth_zero_vol]; rfl
  have hb : ∀ i m, buyNetWorth (run_projection p true 2000 zs zh zr) i m =
      buyNetWorth (detOut p) 0 m := by
    intro i m
    unfold buyNetWorth
    rw [key i m]
    rfl
  have hrw : ∀ i m, rentNetWorth (run_projection p true 2000 zs zh zr) i m =
      rentNetWorth (detOut p) 0 m := by
    intro i m
    unfold rentNetWorth
    rw [key i m]
    rfl
  refine ⟨fun i m => ⟨key i m, hb i m, hrw i m⟩, ?_⟩
  by_cases hwin : rentNetWorth (detOut p) 0 360 < buyNetWorth (detOut p) 0 360
  · right
    unfold buy_win_pct
    have hfilter : ((Finset.range 2000).filter fun i =>
        rentNetWorth (run_projection p true 2000 zs zh zr) i 360 <
          buyNetWorth (run_projection p true 2000 zs zh zr) i 360) = Finset.range 2000 := by
      apply Finset.filter_true_of_mem
      intro i _
      rw [hb i 360, hrw i 360]
      exact hwin
    rw [hfilter]
    norm_num [Finset.card_range]
  · left
    unfold buy_win_pct
    have hfilter : ((Finset.range 2000).filter fun i =>
        rentNetWorth (run_projection p true 2000 zs zh zr) i 360 <
          buyNetWorth (run_projection p true 2000 zs zh zr) i 360) = ∅ := by
      apply Finset.filter_false_of_mem
      intro i _
      rw [hb i 360, hrw i 360]
      exact hwin
    rw [hfilter]
    norm_num

/-- C9, witness. -/
theorem claim9_witness :
    buy_win_pct pZeroVol (fun _ _ => 0) (fun _ _ => 0) (fun _ _ => 0) = 0 ∨
      buy_win_pct pZeroVol (fun _ _ => 0) (fun _ _ => 0) (fun _ _ => 0) = 100 :=
  (claim9_zero_volatility pZeroVol (fun _ _ => 0) (fun _ _ => 0) (fun _ _ => 0)
    rfl rfl rfl).2

/-- The payment charged during loop month `m` is schedule entry `m - 1`. -/
theorem pubStepFull_pmt (p : PParams) (sf hf rf : ℕ → ℝ) (m : ℕ) (s : PState) :
    (pubStepFull p sf hf rf m s).pmt = monthlyPaymentAt p (m - 1) := rfl

theorem pubStepFull_interest (p : PParams) (sf hf rf : ℕ → ℝ) (m : ℕ) (s : PState) :
    (pubStepFull p sf hf rf m s).interest = s.lb * (currRate p m / 12) := rfl

theorem pubStepFull_principal (p : PParams) (sf hf rf : ℕ → ℝ) (m : ℕ) (s : PState) :
    (pubStepFull p sf hf rf m s).principal =
      monthlyPaymentAt p (m - 1) - s.lb * (currRate p m / 12) := rfl

/-- The loan-balance column of a run is the scalar balance recurrence: it does
not depend on the growth factors. -/
theorem pubRun_lb (p : PParams) (sf hf rf : ℕ → ℝ) (m : ℕ) :
    (pubRun p sf hf rf m).lb = pubLB p m := by
  induction m with
  | zero => rfl
  | succ n ih =>
      show max ((pubRun p sf hf rf n).lb -
          (monthlyPaymentAt p n - (pubRun p sf hf rf n).lb * (currRate p (n + 1) / 12))) 0 = _
      rw [ih]
      rfl

theorem pmtF_of_nonpos (P r : ℝ) (y : ℤ) (hP : P ≤ 0) : pmtF P r y = 0 := by
  unfold pmtF
  rw [if_pos (Or.inr hP)]

theorem currRate_nonneg (p : PParams) (h1 : 0 ≤ p.initial_rate)
    (h2 : 0 ≤ p.refinance_rate) (m : ℕ) : 0 ≤ currRate p m := by
  unfold currRate
  split_ifs <;> positivity

/-- A non-positive loan has an identically zero payment schedule (also after a
refinance, whose recomputed balance stays non-positive). -/
theorem monthlyPaymentAt_zero_of_nonpos (p : PParams) (hL : loanAmount p ≤ 0)
    (hr : 0 ≤ p.initial_rate) (idx : ℕ) : monthlyPaymentAt p idx = 0 := by
  unfold monthlyPaymentAt
  split_ifs with h
  · obtain ⟨h1, h2, -⟩ := h
    unfold newPmt
    apply pmtF_of_nonpos
    apply balF_nonpos (loanAmount p) p.initial_rate 30 (refiMonth p) hL hr (by norm_num)
    · unfold refiMonth
      omega
    · unfold refiMonth
      omega
  · exact pmtF_of_nonpos _ _ _ hL

/-- A non-positive loan is floored to zero from month 1 on. -/
theorem pubLB_zero_of_nonpos (p : PParams) (hL : loanAmount p ≤ 0)
    (hr1 : 0 ≤ p.initial_rate) (hr2 : 0 ≤ p.refinance_rate) :
    ∀ n : ℕ, pubLB p (n + 1) = 0 := by
  intro n
  induction n with
  | zero =>
      show max (loanAmount p -
          (monthlyPaymentAt p 0 - loanAmount p * (currRate p 1 / 12))) 0 = 0
      rw [monthlyPaymentAt_zero_of_nonpos p hL hr1 0]
      have hc := currRate_nonneg p hr1 hr2 1
      have hf : (0 : ℝ) ≤ 1 + currRate p 1 / 12 := by
        have : (0 : ℝ) ≤ currRate p 1 / 12 := by positivity
        linarith
      have hx : loanAmount p - (0 - loanAmount p * (currRate p 1 / 12)) =
          loanAmount p * (1 + currRate p 1 / 12) := by ring
      rw [hx]
      refine max_eq_right ?_
      nlinarith [mul_nonneg (neg_nonneg.mpr hL) hf]
  | succ k ih =>
      show max (pubLB p (k + 1) -
          (monthlyPaymentAt p (k + 1) - pubLB p (k + 1) * (currRate p (k + 1 + 1) / 12))) 0 = 0
      rw [ih, monthlyPaymentAt_zero_of_nonpos p hL hr1 (k + 1)]
      norm_num

/-- With no refinance active inside the horizon, the balance follows the
closed amortization form of the original schedule. -/
theorem pubLB_closed_noRefi (p : PParams) (hr : 0 ≤ p.initial_rate)
    (hL : 0 < loanAmount p) (hno : p.refinance_year ≤ 0 ∨ 30 ≤ p.refinance_year) :
    ∀ m : ℕ, m ≤ 360 → pubLB p m = balF (loanAmount p) p.initial_rate 30 (m : ℤ) := by
  intro m
  induction m with
  | zero =>
      intro _
      show loanAmount p = _
      simp [balF]
  | succ n ih =>
      intro h361
      have hpay : monthlyPaymentAt p n = basePmt p := by
        unfold monthlyPaymentAt
        rw [if_neg]
        rintro ⟨ha, hb, -⟩
        omega
      have hrate : currRate p (n + 1) = p.initial_rate / 100 := by
        unfold currRate
        rw [if_neg]
        rintro ⟨ha, hb⟩
        unfold refiMonth at hb
        omega
      show max (pubLB p n -
          (monthlyPaymentAt p n - pubLB p n * (currRate p (n + 1) / 12))) 0 = _
      rw [hpay, hrate, ih (by omega)]
      unfold basePmt
      rw [balF_recurrence (loanAmount p) p.initial_rate 30 (n : ℤ) hL hr (by norm_num)]
      have hc : ((n + 1 : ℕ) : ℤ) = (n : ℤ) + 1 := by push_cast; ring
      rw [hc]
      exact max_eq_left (balF_nonneg _ _ _ _ hL.le hr (by norm_num) (by omega) (by omega))

/-- With a refinance in years 1..29, the balance follows the original closed
form up to the boundary and the refinanced closed form after it. -/
theorem pubLB_closed_refi (p : PParams) (Y : ℕ) (hqy : p.refinance_year = (Y : ℤ))
    (hY1 : 1 ≤ Y) (hY29 : Y ≤ 29) (hr1 : 0 ≤ p.initial_rate)
    (hr2 : 0 ≤ p.refinance_rate) (hL : 0 < loanAmount p) :
    (∀ m : ℕ, m ≤ 12 * Y →
      pubLB p m = balF (loanAmount p) p.initial_rate 30 (m : ℤ)) ∧
    (∀ m : ℕ, 12 * Y ≤ m → m ≤ 360 →
      pubLB p m = balF (balF (loanAmount p) p.initial_rate 30 (refiMonth p))
        p.refinance_rate (30 - p.refinance_year) ((m : ℤ) - refiMonth p)) := by
  have hrM : refiMonth p = (Y : ℤ) * 12 := by rw [refiMonth, hqy]
  have part1 : ∀ m : ℕ, m ≤ 12 * Y →
      pubLB p m = balF (loanAmount p) p.initial_rate 30 (m : ℤ) := by
    intro m
    induction m with
    | zero =>
        intro _
        show loanAmount p = _
        simp [balF]
    | succ n ih =>
        intro hle
        have hpay : monthlyPaymentAt p n = basePmt p := by
          unfold monthlyPaymentAt
          rw [if_neg]
          rintro ⟨-, -, hc⟩
          rw [hrM] at hc
          omega
        have hrate : currRate p (n + 1) = p.initial_rate / 100 := by
          unfold currRate
          rw [if_neg]
          rintro ⟨-, hc⟩
          rw [hrM] at hc
          omega
        show max (pubLB p n -
            (monthlyPaymentAt p n - pubLB p n * (currRate p (n + 1) / 12))) 0 = _
        rw [hpay, hrate, ih (by omega)]
        unfold basePmt
        rw [balF_recurrence (loanAmount p) p.initial_rate 30 (n : ℤ) hL hr1 (by norm_num)]
        have hc : ((n + 1 : ℕ) : ℤ) = (n : ℤ) + 1 := by push_cast; ring
        rw [hc]
        exact max_eq_left (balF_nonneg _ _ _ _ hL.le hr1 (by norm_num) (by omega) (by omega))
  have hB : 0 < balF (loanAmount p) p.initial_rate 30 (refiMonth p) := by
    apply balF_pos_before_term _ _ _ _ hL hr1 (by norm_num)
    · rw [hrM]
      omega
    · rw [hrM]
      omega
  refine ⟨part1, ?_⟩
  intro m h12
  induction m, h12 using Nat.le_induction with
  | base =>
      intro h360
      have harg : ((12 * Y : ℕ) : ℤ) - refiMonth p = 0 := by
        rw [hrM]
        push_cast
        ring
      rw [harg]
      have hbal0 : balF (balF (loanAmount p) p.initial_rate 30 (refiMonth p))
          p.refinance_rate (30 - p.refinance_year) 0 =
          balF (loanAmount p) p.initial_rate 30 (refiMonth p) := by
        simp [balF]
      rw [hbal0, part1 (12 * Y) le_rfl]
      congr 1
      rw [hrM]
      push_cast
      ring
  | succ n hn ih =>
      intro h360
      have hih := ih (by omega)
      have hpay : monthlyPaymentAt p n = newPmt p := by
        unfold monthlyPaymentAt
        refine if_pos ⟨by rw [hqy]; omega, by rw [hqy]; omega, by rw [hrM]; omega⟩
      have hrate : currRate p (n + 1) = p.refinance_rate / 100 := by
        unfold currRate
        refine if_pos ⟨by rw [hqy]; omega, by rw [hrM]; omega⟩
      show max (pubLB p n -
          (monthlyPaymentAt p n - pubLB p n * (currRate p (n + 1) / 12))) 0 = _
      rw [hpay, hrate, hih]
      unfold newPmt
      rw [balF_recurrence _ p.refinance_rate (30 - p.refinance_year)
        ((n : ℤ) - refiMonth p) hB hr2 (by rw [hqy]; omega)]
      have hc : ((n + 1 : ℕ) : ℤ) - refiMonth p = ((n : ℤ) - refiMonth p) + 1 := by
        push_cast
        ring
      rw [hc]
      refine max_eq_left (balF_nonneg _ _ _ _ hB.le hr2 (by rw [hqy]; omega) ?_ ?_)
      · rw [hrM]
        omega
      · rw [hrM, hqy]
        omega

/-- With a positive loan and non-negative rates the balance is strictly
positive at every month before 360: the loan pays off exactly at the end of
the horizon, never earlier. -/
theorem pubLB_pos (p : PParams) (hr1 : 0 ≤ p.initial_rate)
    (hr2 : 0 ≤ p.refinance_rate) (hL : 0 < loanAmount p) (k : ℕ) (hk : k < 360) :
    0 < pubLB p k := by
  by_cases hact : 0 < p.refinance_year ∧ p.refinance_year < 30
  · obtain ⟨ha1, ha2⟩ := hact
    set Y := p.refinance_year.toNat with hYdef
    have hqy : p.refinance_year = (Y : ℤ) := by omega
    have hY1 : 1 ≤ Y := by omega
    have hY29 : Y ≤ 29 := by omega
    obtain ⟨pA, pB⟩ := pubLB_closed_refi p Y hqy hY1 hY29 hr1 hr2 hL
    have hrM : refiMonth p = (Y : ℤ) * 12 := by rw [refiMonth, hqy]
    rcases le_or_lt k (12 * Y) with hk12 | hk12
    · rw [pA k hk12]
      exact balF_pos_before_term _ _ _ _ hL hr1 (by norm_num) (by omega) (by omega)
    · rw [pB k (by omega) (by omega)]
      have hB : 0 < balF (loanAmount p) p.initial_rate 30 (refiMonth p) := by
        apply balF_pos_before_term _ _ _ _ hL hr1 (by norm_num)
        · rw [hrM]
          omega
        · rw [hrM]
          omega
      refine balF_pos_before_term _ _ _ _ hB hr2 (by rw [hqy]; omega) ?_ ?_
      · rw [hrM]
        omega
      · rw [hrM, hqy]
        omega
  · have hno : p.refinance_year ≤ 0 ∨ 30 ≤ p.refinance_year := by
      rcases lt_or_le 0 p.refinance_year with h | h
      · right
        by_contra hc
        push_neg at hc
        exact hact ⟨h, by omega⟩
      · exact Or.inl h
    rw [pubLB_closed_noRefi p hr1 hL hno k (by omega)]
    exact balF_pos_before_term _ _ _ _ hL hr1 (by norm_num) (by omega) (by omega)

/-- In the public engine, on the claim's domain (non-negative rates) a loan
balance that has reached zero at month `j` only happens at the horizon end or
for a non-positive loan, and in either case every later month of the horizon
charges zero payment, interest and principal. -/
theorem pubCharges_zero_after_exhaustion (p : PParams) (hr1 : 0 ≤ p.initial_rate)
    (hr2 : 0 ≤ p.refinance_rate) (sf hf rf : ℕ → ℝ) (j n : ℕ) (hjn : j < n)
    (hn : n ≤ 360) (hz : (pubRun p sf hf rf j).lb = 0) :
    (pubStepFull p sf hf rf n (pubRun p sf hf rf (n - 1))).pmt = 0 ∧
    (pubStepFull p sf hf rf n (pubRun p sf hf rf (n - 1))).interest = 0 ∧
    (pubStepFull p sf hf rf n (pubRun p sf hf rf (n - 1))).principal = 0 := by
  rw [pubRun_lb] at hz
  rcases le_or_lt (loanAmount p) 0 with hL | hL
  · have hpay := monthlyPaymentAt_zero_of_nonpos p hL hr1
    have hlb : pubLB p (n - 1) = 0 := by
      rcases Nat.eq_zero_or_pos (n - 1) with h0 | hpos
      · have hj0 : j = 0 := by omega
        rw [h0]
        rw [hj0] at hz
        exact hz
      · obtain ⟨c, hc⟩ := Nat.exists_eq_add_of_le hpos
        rw [hc, Nat.add_comm]
        exact pubLB_zero_of_nonpos p hL hr1 hr2 c
    refine ⟨?_, ?_, ?_⟩
    · rw [pubStepFull_pmt]
      exact hpay (n - 1)
    · rw [pubStepFull_interest, pubRun_lb, hlb]
      ring
    · rw [pubStepFull_principal, pubRun_lb, hlb, hpay (n - 1)]
      ring
  · exact absurd hz (ne_of_gt (pubLB_pos p hr1 hr2 hL j (by omega)))

theorem srcRefi_of_not (q : SrcParams) (m : ℕ) (s : MState)
    (h : ¬ srcRefiCond q m s) : srcRefi q m s = s := by
  unfold srcRefi
  exact if_neg h

theorem srcMove_balance (q : SrcParams) (m : ℕ) (s : MState) :
    (srcMove q m s).balance = s.balance := by
  unfold srcMove
  by_cases h : srcMoveCond q m s <;> simp [h]

theorem srcMove_refinanced (q : SrcParams) (m : ℕ) (s : MState) :
    (srcMove q m s).refinanced = s.refinanced := by
  unfold srcMove
  by_cases h : srcMoveCond q m s <;> simp [h]

theorem srcMove_pmt (q : SrcParams) (m : ℕ) (s : MState) :
    (srcMove q m s).pmt = s.pmt := by
  unfold srcMove
  by_cases h : srcMoveCond q m s <;> simp [h]

theorem srcMove_rate (q : SrcParams) (m : ℕ) (s : MState) :
    (srcMove q m s).rate = s.rate := by
  unfold srcMove
  by_cases h : srcMoveCond q m s <;> simp [h]

theorem srcStepFull_payment (q : SrcParams) (m : ℕ) (s : MState) :
    (srcStepFull q m s).payment =
      if (srcMove q m (srcRefi q m s)).balance ≤ 0 then 0
      else (srcMove q m (srcRefi q m s)).pmt := rfl

theorem srcStepFull_interest_eq (q : SrcParams) (m : ℕ) (s : MState) :
    (srcStepFull q m s).interest =
      if (srcMove q m (srcRefi q m s)).balance ≤ 0 then 0
      else (srcMove q m (srcRefi q m s)).balance *
        ((srcMove q m (srcRefi q m s)).rate / 12) := rfl

theorem srcStepFull_next_rate (q : SrcParams) (m : ℕ) (s : MState) :
    (srcStepFull q m s).next.rate = (srcMove q m (srcRefi q m s)).rate := rfl

/-- Before month `12·Y` the one-time refinance block has not fired yet. -/
theorem srcRefinanced_false_before (q : SrcParams) (Y : ℕ)
    (hqy : q.refinance_year = (Y : ℤ)) :
    ∀ n, n < 12 * Y → (srcRun q n).refinanced = false := by
  intro n
  induction n with
  | zero =>
      intro _
      rfl
  | succ c ih =>
      intro hlt
      have hcond : ¬ srcRefiCond q (c + 1) (srcRun q c) := by
        rintro ⟨h1, h2, -⟩
        rw [hqy] at h2
        have h2' : Y ≤ (c + 1) / 12 := by exact_mod_cast h2
        omega
      show (srcStepFull q (c + 1) (srcRun q c)).next.refinanced = false
      have hproj : (srcStepFull q (c + 1) (srcRun q c)).next.refinanced =
          (srcMove q (c + 1) (srcRefi q (c + 1) (srcRun q c))).refinanced := rfl
      rw [hproj, srcMove_refinanced, srcRefi_of_not q (c + 1) (srcRun q c) hcond]
      exact ih (by omega)

/-- C6, amended: the two engines disagree at the refinance boundary.  In
`src/public/main.py`, with a refinance year in 1..29, the refinanced payment —
computed over `30 - Y` years at the refinance rate on the balance taken at the
original rate and term at month `Y*12` — is charged only from month `Y*12 + 1`
onward, and the refinance rate likewise; the boundary month `Y*12` itself
still pays the original base payment at the original rate.  In `src/main.py`
the refinance block fires at month `Y*12` itself: provided the refinanced
balance (the closed-form remainder plus the refinance costs — not the plain
remaining balance) is still positive, that month already charges the new
payment, computed on that balance over `30 - Y` years, with interest at the
new rate. -/
theorem claim6_refinance_applies_after_boundary (p : PParams) (q : SrcParams)
    (Y : ℕ) (h0 : 0 < p.refinance_year) (h30 : p.refinance_year < 30)
    (hqy : q.refinance_year = (Y : ℤ)) (hY1 : 1 ≤ Y) (hY29 : Y ≤ 29) :
    (∀ m : ℕ, refiMonth p < (m : ℤ) →
      monthlyPaymentAt p (m - 1) = newPmt p ∧ currRate p m = p.refinance_rate / 100) ∧
    (∀ m : ℕ, (m : ℤ) = refiMonth p →
      monthlyPaymentAt p (m - 1) = basePmt p ∧ currRate p m = p.initial_rate / 100) ∧
    ((srcRun q (12 * Y - 1)).refinanced = false ∧
      (0 < srcBalF q.initialLoan q.rate0 30 ((12 * Y : ℕ) : ℤ) + q.refinance_costs →
        (srcStepFull q (12 * Y) (srcRun q (12 * Y - 1))).payment =
          srcPmtF (srcBalF q.initialLoan q.rate0 30 ((12 * Y : ℕ) : ℤ) + q.refinance_costs)
            q.rrate (30 - (Y : ℤ)) ∧
        (srcStepFull q (12 * Y) (srcRun q (12 * Y - 1))).interest =
          (srcBalF q.initialLoan q.rate0 30 ((12 * Y : ℕ) : ℤ) + q.refinance_costs) *
            (q.rrate / 12) ∧
        (srcStepFull q (12 * Y) (srcRun q (12 * Y - 1))).next.rate = q.rrate)) := by
  refine ⟨?_, ?_, ?_⟩
  · intro m hm
    have hm1 : 1 ≤ m := by
      unfold refiMonth at hm
      omega
    have hcast : ((m - 1 : ℕ) : ℤ) = (m : ℤ) - 1 := by omega
    refine ⟨?_, ?_⟩
    · unfold monthlyPaymentAt
      rw [if_pos ⟨h0, h30, by rw [hcast]; omega⟩]
    · unfold currRate
      rw [if_pos ⟨h0, hm⟩]
  · intro m hm
    have hm1 : 1 ≤ m := by
      unfold refiMonth at hm
      omega
    have hcast : ((m - 1 : ℕ) : ℤ) = (m : ℤ) - 1 := by omega
    refine ⟨?_, ?_⟩
    · unfold monthlyPaymentAt
      rw [if_neg]
      rintro ⟨-, -, hle⟩
      rw [hcast] at hle
      omega
    · unfold currRate
      rw [if_neg]
      rintro ⟨-, hlt⟩
      omega
  · have hbefore := srcRefinanced_false_before q Y hqy (12 * Y - 1) (by omega)
    refine ⟨hbefore, ?_⟩
    intro hpos
    have hdiv : 12 * Y / 12 = Y := Nat.mul_div_cancel_left Y (by norm_num)
    have hcond : srcRefiCond q (12 * Y) (srcRun q (12 * Y - 1)) := by
      refine ⟨by rw [hqy]; omega, ?_, hbefore⟩
      rw [hqy, hdiv]
    have hbal : (srcRefi q (12 * Y) (srcRun q (12 * Y - 1))).balance =
        srcBalF q.initialLoan q.rate0 30 ((12 * Y : ℕ) : ℤ) + q.refinance_costs := by
      unfold srcRefi
      rw [if_pos hcond]
    have hpmt : (srcRefi q (12 * Y) (srcRun q (12 * Y - 1))).pmt =
        srcPmtF (srcBalF q.initialLoan q.rate0 30 ((12 * Y : ℕ) : ℤ) + q.refinance_costs)
          q.rrate (30 - (Y : ℤ)) := by
      unfold srcRefi
      rw [if_pos hcond, hdiv]
    have hrt : (srcRefi q (12 * Y) (srcRun q (12 * Y - 1))).rate = q.rrate := by
      unfold srcRefi
      rw [if_pos hcond]
    refine ⟨?_, ?_, ?_⟩
    · rw [srcStepFull_payment, srcMove_balance, hbal, if_neg (not_le.mpr hpos),
        srcMove_pmt, hpmt]
    · rw [srcStepFull_interest_eq, srcMove_balance, hbal, if_neg (not_le.mpr hpos),
        srcMove_rate, hrt]
    · rw [srcStepFull_next_rate, srcMove_rate, hrt]

/-- C6, witness. -/
theorem claim6_witness :
    (monthlyPaymentAt p6w (29 * 12) = newPmt p6w ∧
      currRate p6w (29 * 12 + 1) = p6w.refinance_rate / 100) ∧
    (srcRun q6w 11).refinanced = false ∧
    (srcStepFull q6w 12 (srcRun q6w 11)).next.rate = q6w.rrate := by
  have h := claim6_refinance_applies_after_boundary p6w q6w 1 (by norm_num [p6w])
    (by norm_num [p6w]) (by norm_num [q6w]) le_rfl (by norm_num)
  have hpos : (0 : ℝ) <
      srcBalF q6w.initialLoan q6w.rate0 30 ((12 * 1 : ℕ) : ℤ) + q6w.refinance_costs := by
    norm_num [srcBalF, SrcParams.initialLoan, SrcParams.downPayment, SrcParams.rate0, q6w]
  exact ⟨h.1 (29 * 12 + 1) (by norm_num [refiMonth, p6w]), h.2.2.1,
    (h.2.2.2 hpos).2.2⟩

/-- C6, counterexample: at the refinance-boundary month `Y*12 = 348` the
engine still charges the base payment (1000, not the refinanced payment) and
still uses the original rate (0, not 12 = 1200/100): the claim's parenthesis
is wrong, the new payment and rate begin only at month `Y*12 + 1`. -/
theorem claim6_counterexample :
    monthlyPaymentAt p6w (29 * 12 - 1) ≠ newPmt p6w ∧
      currRate p6w (29 * 12) ≠ p6w.refinance_rate / 100 := by
  have hbase : monthlyPaymentAt p6w (29 * 12 - 1) = 1000 := by
    norm_num [monthlyPaymentAt, refiMonth, p6w, basePmt, pmtF, loanAmount]
  have hnew : newPmt p6w = 12000 * (2 ^ (12 : ℤ)) / (2 ^ (12 : ℤ) - 1) := by
    norm_num [newPmt, refiMonth, p6w, pmtF, balF, loanAmount]
  have hrate : currRate p6w (29 * 12) = 0 := by
    norm_num [currRate, refiMonth, p6w]
  refine ⟨?_, ?_⟩
  · rw [hbase, hnew]
    norm_num
  · rw [hrate]
    norm_num [p6w]

theorem detState_ri_succ (p : PParams) (m : ℕ) :
    (detState p (m + 1)).ri = (detState p m).ri * (1 + p.stock_growth / 100 / 12) +
      max 0 (-(pubStepFull p (detSF p) (detHF p) (detRF p) (m + 1) (detState p m)).costDiff) := rfl

theorem detState_bi_succ (p : PParams) (m : ℕ) :
    (detState p (m + 1)).bi = (detState p m).bi * (1 + p.stock_growth / 100 / 12) +
      max 0 (pubStepFull p (detSF p) (detHF p) (detRF p) (m + 1) (detState p m)).costDiff -
      (if 0 < p.refinance_year ∧ ((m + 1 : ℕ) : ℤ) = refiMonth p
        then p.refinance_costs else 0) := rfl

theorem det_stock_factor_ge_one (p : PParams) (hsg : 0 ≤ p.stock_growth) :
    1 ≤ 1 + p.stock_growth / 100 / 12 := by
  have : 0 ≤ p.stock_growth / 100 / 12 := by positivity
  linarith

theorem detRI_nonneg (p : PParams) (hsg : 0 ≤ p.stock_growth)
    (hdp : 0 ≤ p.down_payment_amount) (hhp : 0 ≤ p.home_price)
    (hcc : 0 ≤ p.closing_costs_pct) (m : ℕ) : 0 ≤ (detState p m).ri := by
  induction m with
  | zero =>
      show 0 ≤ p.down_payment_amount + p.home_price * (p.closing_costs_pct / 100)
      positivity
  | succ k ih =>
      rw [detState_ri_succ]
      have hf : (0 : ℝ) ≤ 1 + p.stock_growth / 100 / 12 :=
        le_trans zero_le_one (det_stock_factor_ge_one p hsg)
      exact add_nonneg (mul_nonneg ih hf) (le_max_left 0 _)

theorem detBI_nonneg (p : PParams) (hsg : 0 ≤ p.stock_growth)
    (hry : p.refinance_year ≤ 0) (m : ℕ) : 0 ≤ (detState p m).bi := by
  induction m with
  | zero => exact le_rfl
  | succ k ih =>
      rw [detState_bi_succ, if_neg (by rintro ⟨h, -⟩; omega)]
      have hf : (0 : ℝ) ≤ 1 + p.stock_growth / 100 / 12 :=
        le_trans zero_le_one (det_stock_factor_ge_one p hsg)
      have := add_nonneg (mul_nonneg ih hf) (le_max_left (0 : ℝ)
        (pubStepFull p (detSF p) (detHF p) (detRF p) (k + 1) (detState p k)).costDiff)
      linarith

/-- One `rent_vs_buy_analysis` month updates the rent-side account by the
stock factor plus the positive part of the cost difference. -/
theorem srcStepFull_rentInv (q : SrcParams) (m : ℕ) (s : MState) :
    (srcStepFull q m s).next.rentInv =
      if 0 < srcCostDiff q m s then s.rentInv * (1 + q.sg / 12) + srcCostDiff q m s
      else s.rentInv * (1 + q.sg / 12) := rfl

/-- One `rent_vs_buy_analysis` month updates the buy-side account by the
stock factor plus the absolute value of a non-positive cost difference. -/
theorem srcStepFull_buyInv (q : SrcParams) (m : ℕ) (s : MState) :
    (srcStepFull q m s).next.buyInv =
      if 0 < srcCostDiff q m s then s.buyInv * (1 + q.sg / 12)
      else s.buyInv * (1 + q.sg / 12) + |srcCostDiff q m s| := rfl

theorem src_stock_factor_ge_one (q : SrcParams) (hsg : 0 ≤ q.stock_growth) :
    1 ≤ 1 + q.sg / 12 := by
  have : 0 ≤ q.sg / 12 := by
    unfold SrcParams.sg
    positivity
  linarith

theorem srcRI_nonneg (q : SrcParams) (hsg : 0 ≤ q.stock_growth)
    (hhp : 0 ≤ q.home_price) (hdp : 0 ≤ q.down_payment_pct)
    (hcc : 0 ≤ q.closing_costs_pct) (m : ℕ) : 0 ≤ (srcRun q m).rentInv := by
  induction m with
  | zero =>
      show 0 ≤ q.downPayment + q.closingCosts
      unfold SrcParams.downPayment SrcParams.closingCosts
      positivity
  | succ k ih =>
      have hf : (0 : ℝ) ≤ 1 + q.sg / 12 :=
        le_trans zero_le_one (src_stock_factor_ge_one q hsg)
      show 0 ≤ (srcStepFull q (k + 1) (srcRun q k)).next.rentInv
      rw [srcStepFull_rentInv]
      split_ifs with h
      · have := mul_nonneg ih hf
        linarith
      · exact mul_nonneg ih hf

theorem srcBI_nonneg (q : SrcParams) (hsg : 0 ≤ q.stock_growth) (m : ℕ) :
    0 ≤ (srcRun q m).buyInv := by
  induction m with
  | zero => exact le_rfl
  | succ k ih =>
      have hf : (0 : ℝ) ≤ 1 + q.sg / 12 :=
        le_trans zero_le_one (src_stock_factor_ge_one q hsg)
      show 0 ≤ (srcStepFull q (k + 1) (srcRun q k)).next.buyInv
      rw [srcStepFull_buyInv]
      split_ifs with h
      · exact mul_nonneg ih hf
      · have h1 := abs_nonneg (srcCostDiff q (k + 1) (srcRun q k))
        have h2 := mul_nonneg ih hf
        linarith

/-- C8, amended: in the deterministic run of either engine with a non-negative
mean stock growth (and non-negative price / down-payment / closing-cost
inputs) the rent-side balance is non-decreasing every month.  In
`src/public/main.py` the buy-side balance is non-decreasing at every month
other than the refinance-cost deduction month whenever its previous balance is
non-negative — which always holds when no refinance is configured (a
refinance cost larger than the balance can push it negative, after which the
growth multiplication may shrink it further).  In `src/main.py`, which has no
investment-side refinance deduction (the costs are rolled into the loan),
both balances are non-decreasing at every month unconditionally.  Each month
only the side with the lower housing cost receives a contribution and
contributions are never negative.  A negative mean stock growth breaks the
claim as stated (see the counterexample). -/
theorem claim8_investment_monotonicity (p : PParams) (q : SrcParams)
    (hsg : 0 ≤ p.stock_growth) (hdp : 0 ≤ p.down_payment_amount)
    (hhp : 0 ≤ p.home_price) (hcc : 0 ≤ p.closing_costs_pct)
    (hsg' : 0 ≤ q.stock_growth) (hhp' : 0 ≤ q.home_price)
    (hdp' : 0 ≤ q.down_payment_pct) (hcc' : 0 ≤ q.closing_costs_pct) :
    (∀ m, (detState p m).ri ≤ (detState p (m + 1)).ri) ∧
    (p.refinance_year ≤ 0 → ∀ m, (detState p m).bi ≤ (detState p (m + 1)).bi) ∧
    (∀ m, 0 ≤ (detState p m).bi →
      ¬(0 < p.refinance_year ∧ ((m + 1 : ℕ) : ℤ) = refiMonth p) →
      (detState p m).bi ≤ (detState p (m + 1)).bi) ∧
    (∀ (sf hf rf : ℕ → ℝ) (m : ℕ) (s : PState),
      0 ≤ max 0 (pubStepFull p sf hf rf m s).costDiff ∧
      0 ≤ max 0 (-(pubStepFull p sf hf rf m s).costDiff) ∧
      (max 0 (pubStepFull p sf hf rf m s).costDiff = 0 ∨
        max 0 (-(pubStepFull p sf hf rf m s).costDiff) = 0)) ∧
    (∀ m, (srcRun q m).rentInv ≤ (srcRun q (m + 1)).rentInv) ∧
    (∀ m, (srcRun q m).buyInv ≤ (srcRun q (m + 1)).buyInv) ∧
    (∀ (m : ℕ) (s : MState),
      0 ≤ (if 0 < srcCostDiff q m s then srcCostDiff q m s else 0) ∧
      0 ≤ (if 0 < srcCostDiff q m s then (0 : ℝ) else |srcCostDiff q m s|) ∧
      ((if 0 < srcCostDiff q m s then srcCostDiff q m s else 0) = 0 ∨
        (if 0 < srcCostDiff q m s then (0 : ℝ) else |srcCostDiff q m s|) = 0)) := by
  have hf1 : 1 ≤ 1 + p.stock_growth / 100 / 12 := det_stock_factor_ge_one p hsg
  have hf1' : 1 ≤ 1 + q.sg / 12 := src_stock_factor_ge_one q hsg'
  have hf0' : (0 : ℝ) ≤ 1 + q.sg / 12 := le_trans zero_le_one hf1'
  have hmono : ∀ m, 0 ≤ (detState p m).bi →
      ¬(0 < p.refinance_year ∧ ((m + 1 : ℕ) : ℤ) = refiMonth p) →
      (detState p m).bi ≤ (detState p (m + 1)).bi := by
    intro m hb hno
    rw [detState_bi_succ, if_neg hno]
    have h1 : (detState p m).bi * 1 ≤ (detState p m).bi * (1 + p.stock_growth / 100 / 12) :=
      mul_le_mul_of_nonneg_left hf1 hb
    have h2 := le_max_left (0 : ℝ)
      (pubStepFull p (detSF p) (detHF p) (detRF p) (m + 1) (detState p m)).costDiff
    linarith
  refine ⟨?_, ?_, hmono, ?_, ?_, ?_, ?_⟩
  · intro m
    rw [detState_ri_succ]
    have h0 := detRI_nonneg p hsg hdp hhp hcc m
    have h1 : (detState p m).ri * 1 ≤ (detState p m).ri * (1 + p.stock_growth / 100 / 12) :=
      mul_le_mul_of_nonneg_left hf1 h0
    have h2 := le_max_left (0 : ℝ)
      (-(pubStepFull p (detSF p) (detHF p) (detRF p) (m + 1) (detState p m)).costDiff)
    linarith
  · intro hry m
    exact hmono m (detBI_nonneg p hsg hry m) (by rintro ⟨h, -⟩; omega)
  · intro sf hf rf m s
    refine ⟨le_max_left 0 _, le_max_left 0 _, ?_⟩
    rcases le_total (pubStepFull p sf hf rf m s).costDiff 0 with h | h
    · exact Or.inl (max_eq_left h)
    · exact Or.inr (max_eq_left (neg_nonpos.mpr h))
  · intro m
    have h0 := srcRI_nonneg q hsg' hhp' hdp' hcc' m
    have h1 : (srcRun q m).rentInv * 1 ≤ (srcRun q m).rentInv * (1 + q.sg / 12) :=
      mul_le_mul_of_nonneg_left hf1' h0
    show (srcRun q m).rentInv ≤ (srcStepFull q (m + 1) (srcRun q m)).next.rentInv
    rw [srcStepFull_rentInv]
    split_ifs with h
    · linarith
    · linarith
  · intro m
    have h0 := srcBI_nonneg q hsg' m
    have h1 : (srcRun q m).buyInv * 1 ≤ (srcRun q m).buyInv * (1 + q.sg / 12) :=
      mul_le_mul_of_nonneg_left hf1' h0
    have h2 := abs_nonneg (srcCostDiff q (m + 1) (srcRun q m))
    show (srcRun q m).buyInv ≤ (srcStepFull q (m + 1) (srcRun q m)).next.buyInv
    rw [srcStepFull_buyInv]
    split_ifs with h
    · linarith
    · linarith
  · intro m s
    refine ⟨?_, ?_, ?_⟩
    · split_ifs with h
      · exact h.le
      · exact le_rfl
    · split_ifs with h
      · exact le_rfl
      · exact abs_nonneg _
    · rcases lt_or_le 0 (srcCostDiff q m s) with h | h
      · exact Or.inr (if_pos h)
      · exact Or.inl (if_neg (not_lt.mpr h))

/-- C8, witness. -/
theorem claim8_witness :
    (detState pDef 0).ri ≤ (detState pDef (0 + 1)).ri ∧
      (0 : ℝ) ≤ max 0
        (pubStepFull pDef (detSF pDef) (detHF pDef) (detRF pDef) 1 (pubInit pDef)).costDiff ∧
      (srcRun qDef 0).rentInv ≤ (srcRun qDef (0 + 1)).rentInv ∧
      (srcRun qDef 0).buyInv ≤ (srcRun qDef (0 + 1)).buyInv :=
  ⟨(claim8_investment_monotonicity pDef qDef le_rfl le_rfl le_rfl le_rfl
      le_rfl le_rfl le_rfl le_rfl).1 0,
   ((claim8_investment_monotonicity pDef qDef le_rfl le_rfl le_rfl le_rfl
      le_rfl le_rfl le_rfl le_rfl).2.2.2.1
      (detSF pDef) (detHF pDef) (detRF pDef) 1 (pubInit pDef)).1,
   (claim8_investment_monotonicity pDef qDef le_rfl le_rfl le_rfl le_rfl
      le_rfl le_rfl le_rfl le_rfl).2.2.2.2.1 0,
   (claim8_investment_monotonicity pDef qDef le_rfl le_rfl le_rfl le_rfl
      le_rfl le_rfl le_rfl le_rfl).2.2.2.2.2.1 0⟩

/-- C8, counterexample: with a negative mean stock growth the rent-side
balance already shrinks from month 0 to month 1 (100 to 99) although no
refinance is configured, so the deterministic investment balances are not
non-decreasing as claimed. -/
theorem claim8_counterexample : (detState p8w (0 + 1)).ri < (detState p8w 0).ri := by
  rw [detState_ri_succ]
  show _ < (pubInit p8w).ri
  norm_num [pubInit, pubStepFull, detSF, detHF, detRF, rentBaseAt, monthlyPaymentAt,
    basePmt, newPmt, pmtF, balF, loanAmount, currRate, refiMonth, p8w, detState, detOut,
    run_projection, pubRun, generate_growth]

/-- The per-month property-tax charge is the running `monthly_property_tax`
value, and that value is refreshed from the current home value only at
12-month boundaries (after the month's charge). -/
theorem srcStepFull_tax (q : SrcParams) (m : ℕ) (s : MState) :
    (srcStepFull q m s).tax = s.propTaxMonthly := rfl

theorem srcStepFull_insurance (q : SrcParams) (m : ℕ) (s : MState) :
    (srcStepFull q m s).insurance = srcHomeValue q m * q.ir / 12 := rfl

theorem srcStepFull_propTax_next (q : SrcParams) (m : ℕ) (s : MState) :
    (srcStepFull q m s).next.propTaxMonthly =
      if m % 12 = 0 then srcHomeValue q m * q.ptr / 12 else s.propTaxMonthly := rfl

/-- During the whole first year the running property tax is still the one
assessed on the purchase price. -/
theorem srcPropTax_first_year (q : SrcParams) :
    ∀ n, n ≤ 11 → (srcRun q n).propTaxMonthly = q.home_price * q.ptr / 12 := by
  intro n hn
  induction n with
  | zero => rfl
  | succ k ih =>
      have hstep : (srcRun q (k + 1)).propTaxMonthly =
          if (k + 1) % 12 = 0 then srcHomeValue q (k + 1) * q.ptr / 12
          else (srcRun q k).propTaxMonthly :=
        srcStepFull_propTax_next q (k + 1) (srcRun q k)
      rw [hstep, if_neg (by omega)]
      exact ih (by omega)

/-- One exhausted month: with a non-positive balance and no refinance still
pending, the month charges nothing and leaves the balance and the refinance
flag unchanged. -/
theorem srcStep_exhausted (q : SrcParams) (m : ℕ) (s : MState)
    (hbal : s.balance ≤ 0) (href : s.refinanced = true ∨ q.refinance_year ≤ 0) :
    (srcStepFull q m s).payment = 0 ∧ (srcStepFull q m s).interest = 0 ∧
    (srcStepFull q m s).principal = 0 ∧
    (srcStepFull q m s).next.balance = s.balance ∧
    (srcStepFull q m s).next.refinanced = s.refinanced := by
  have hnc : ¬ srcRefiCond q m s := by
    rintro ⟨h1, -, h3⟩
    rcases href with h | h
    · rw [h] at h3
      exact Bool.noConfusion h3
    · omega
  have hs1 : srcRefi q m s = s := srcRefi_of_not q m s hnc
  unfold srcStepFull
  simp only [hs1, srcMove_balance, if_pos hbal, sub_zero]
  exact ⟨trivial, trivial, trivial, trivial, by rw [srcMove_refinanced]⟩

/-- C5, amended: in the `src/main.py` recurrence, once the loan balance is
non-positive at some month with no refinance still pending, the payment,
interest and principal charged are all zero for every later month and the
balance stays exactly where it was (in particular it never becomes more
negative); a still-pending refinance can resurrect an exhausted loan, after
which nonzero payments resume (see the counterexample).  In the
`src/public/main.py` engine, on the claim's domain of non-negative rates, a
balance that has reached zero at some month likewise leaves zero payment,
interest and principal for every later month of the horizon (the closed-form
trajectory shows a positive loan only pays off at month 360, so the premise
is reachable only with a non-positive loan and an identically zero schedule),
and the floored balance is never negative from month 1 on. -/
theorem claim5_exhausted_loan_stays_free (q : SrcParams) (k : ℕ)
    (hbal : (srcRun q k).balance ≤ 0)
    (href : (srcRun q k).refinanced = true ∨ q.refinance_year ≤ 0) :
    (∀ m, k < m →
      (srcStepFull q m (srcRun q (m - 1))).payment = 0 ∧
      (srcStepFull q m (srcRun q (m - 1))).interest = 0 ∧
      (srcStepFull q m (srcRun q (m - 1))).principal = 0 ∧
      (srcRun q m).balance = (srcRun q k).balance) ∧
    (∀ (p : PParams), 0 ≤ p.initial_rate → 0 ≤ p.refinance_rate →
      ∀ (sf hf rf : ℕ → ℝ) (j n : ℕ), j < n → n ≤ 360 →
      (pubRun p sf hf rf j).lb = 0 →
      (pubStepFull p sf hf rf n (pubRun p sf hf rf (n - 1))).pmt = 0 ∧
      (pubStepFull p sf hf rf n (pubRun p sf hf rf (n - 1))).interest = 0 ∧
      (pubStepFull p sf hf rf n (pubRun p sf hf rf (n - 1))).principal = 0) ∧
    (∀ (p : PParams) (sf hf rf : ℕ → ℝ) (m : ℕ), 0 ≤ (pubRun p sf hf rf (m + 1)).lb) := by
  have main : ∀ m, k ≤ m → (srcRun q m).balance = (srcRun q k).balance ∧
      ((srcRun q m).refinanced = true ∨ q.refinance_year ≤ 0) := by
    intro m hm
    induction m with
    | zero =>
        have hk : k = 0 := by omega
        subst hk
        exact ⟨rfl, href⟩
    | succ n ih =>
        by_cases hk : k = n + 1
        · subst hk
          exact ⟨rfl, href⟩
        · obtain ⟨hb, hr⟩ := ih (by omega)
          have hbn : (srcRun q n).balance ≤ 0 := by
            rw [hb]
            exact hbal
          have step := srcStep_exhausted q (n + 1) (srcRun q n) hbn hr
          refine ⟨?_, ?_⟩
          · show (srcStepFull q (n + 1) (srcRun q n)).next.balance = _
            rw [step.2.2.2.1, hb]
          · show (srcStepFull q (n + 1) (srcRun q n)).next.refinanced = true ∨ _
            rcases hr with h | h
            · exact Or.inl (by rw [step.2.2.2.2, h])
            · exact Or.inr h
  refine ⟨?_, ?_, ?_⟩
  · intro m hm
    obtain ⟨hb, hr⟩ := main (m - 1) (by omega)
    have hbn : (srcRun q (m - 1)).balance ≤ 0 := by
      rw [hb]
      exact hbal
    have step := srcStep_exhausted q m (srcRun q (m - 1)) hbn hr
    refine ⟨step.1, step.2.1, step.2.2.1, ?_⟩
    have hm1 : m = (m - 1) + 1 := by omega
    rw [hm1]
    show (srcStepFull q ((m - 1) + 1) (srcRun q (m - 1))).next.balance = _
    rw [← hm1, step.2.2.2.1, hb]
  · intro p hr1 hr2 sf hf rf j n hjn hn hz
    exact pubCharges_zero_after_exhaustion p hr1 hr2 sf hf rf j n hjn hn hz
  · intro p sf hf rf m
    show (0 : ℝ) ≤ max _ 0
    exact le_max_right _ 0

/-- C5, witness. -/
theorem claim5_witness :
    ((srcStepFull qDef 1 (srcRun qDef 0)).payment = 0 ∧
      (srcStepFull qDef 1 (srcRun qDef 0)).interest = 0 ∧
      (srcStepFull qDef 1 (srcRun qDef 0)).principal = 0 ∧
      (srcRun qDef 1).balance = (srcRun qDef 0).balance) ∧
    ((pubStepFull pDef (detSF pDef) (detHF pDef) (detRF pDef) 1
        (pubRun pDef (detSF pDef) (detHF pDef) (detRF pDef) 0)).pmt = 0 ∧
      (pubStepFull pDef (detSF pDef) (detHF pDef) (detRF pDef) 1
        (pubRun pDef (detSF pDef) (detHF pDef) (detRF pDef) 0)).interest = 0 ∧
      (pubStepFull pDef (detSF pDef) (detHF pDef) (detRF pDef) 1
        (pubRun pDef (detSF pDef) (detHF pDef) (detRF pDef) 0)).principal = 0) ∧
    (0 : ℝ) ≤ (pubRun pDef (detSF pDef) (detHF pDef) (detRF pDef) 1).lb := by
  have h := claim5_exhausted_loan_stays_free qDef 0
    (by norm_num [srcRun, srcInit, SrcParams.initialLoan, SrcParams.downPayment, qDef])
    (Or.inr le_rfl)
  refine ⟨h.1 1 (by norm_num), ?_,
    h.2.2 pDef (detSF pDef) (detHF pDef) (detRF pDef) 0⟩
  have hz : (pubRun pDef (detSF pDef) (detHF pDef) (detRF pDef) 0).lb = 0 := by
    norm_num [pubRun, pubInit, loanAmount, pDef]
  exact h.2.1 pDef le_rfl le_rfl (detSF pDef) (detHF pDef) (detRF pDef) 0 1
    (by norm_num) (by norm_num) hz

theorem q5w_fix : ∀ m, 1 ≤ m → m ≤ 11 →
    (srcStepFull q5w m (srcInit q5w)).next = srcInit q5w := by
  intro m h1 h11
  have hy : m / 12 = 0 := Nat.div_eq_of_lt (by omega)
  have hmod : ¬ m % 12 = 0 := by omega
  unfold srcStepFull srcRefi srcMove srcRent srcRefiCond srcMoveCond srcInit srcHomeValue
  norm_num [hy, hmod, q5w, SrcParams.initialLoan, SrcParams.downPayment,
    SrcParams.closingCosts, SrcParams.rate0, SrcParams.rrate, SrcParams.hpg, SrcParams.rg,
    SrcParams.sg, SrcParams.ptr, SrcParams.ir, srcPmtF]

theorem q5w_run : ∀ m, m ≤ 11 → srcRun q5w m = srcInit q5w := by
  intro m hm
  induction m with
  | zero => rfl
  | succ n ih =>
      show (srcStepFull q5w (n + 1) (srcRun q5w n)).next = srcInit q5w
      rw [ih (by omega)]
      exact q5w_fix (n + 1) (by omega) (by omega)

/-- C5, counterexample: the loan balance is zero from month 0 through month 11
(100% down payment, loan 0), yet at month 12 the pending refinance resurrects
a positive balance (the 500 refinance cost is rolled into it) and a nonzero
payment is charged again — so reaching a zero balance does not keep
payment/interest/principal at zero for the rest of the horizon. -/
theorem claim5_counterexample :
    (srcRun q5w 1).balance = 0 ∧ (srcRun q5w 11).balance = 0 ∧
      (srcStepFull q5w 12 (srcRun q5w 11)).payment ≠ 0 := by
  have h1 := q5w_run 1 (by norm_num)
  have h11 := q5w_run 11 (by norm_num)
  refine ⟨?_, ?_, ?_⟩
  · rw [h1]
    norm_num [srcInit, q5w, SrcParams.initialLoan, SrcParams.downPayment]
  · rw [h11]
    norm_num [srcInit, q5w, SrcParams.initialLoan, SrcParams.downPayment]
  · rw [h11]
    unfold srcStepFull srcRefi srcMove srcRefiCond srcMoveCond srcInit
    norm_num [q5w, SrcParams.initialLoan, SrcParams.downPayment, SrcParams.closingCosts,
      SrcParams.rate0, SrcParams.rrate, srcBalF, srcPmtF]

/-- C7, amended: in the `src/public/main.py` engine both the property-tax and
the insurance charge of month `m` are the configured rates over 12 applied to
the home value of month `m` itself, and in `src/main.py` the insurance charge
is too; but the `src/main.py` property-tax charge is the rate applied to the
home value frozen at the most recent 12-month boundary — throughout the first
year (months 1..12) it is still assessed on the original purchase price, not
on the grown value (see the counterexample). -/
theorem claim7_costs_use_current_value :
    (∀ (p : PParams) (sf hf rf : ℕ → ℝ) (m : ℕ),
      (pubStepFull p sf hf rf (m + 1) (pubRun p sf hf rf m)).tax =
        (pubRun p sf hf rf (m + 1)).hv * (p.property_tax_rate / 100 / 12) ∧
      (pubStepFull p sf hf rf (m + 1) (pubRun p sf hf rf m)).ins =
        (pubRun p sf hf rf (m + 1)).hv * (p.insurance_rate / 100 / 12)) ∧
    (∀ (q : SrcParams) (m : ℕ) (s : MState),
      (srcStepFull q m s).insurance = srcHomeValue q m * q.ir / 12) ∧
    (∀ (q : SrcParams) (m : ℕ), 1 ≤ m → m ≤ 12 →
      (srcStepFull q m (srcRun q (m - 1))).tax = q.home_price * q.ptr / 12) := by
  refine ⟨fun p sf hf rf m => ⟨rfl, rfl⟩, fun q m s => rfl, fun q m h1 h12 => ?_⟩
  rw [srcStepFull_tax]
  exact srcPropTax_first_year q (m - 1) (by omega)

/-- C7, witness. -/
theorem claim7_witness :
    (srcStepFull qDef 1 (srcRun qDef 0)).tax = qDef.home_price * qDef.ptr / 12 :=
  claim7_costs_use_current_value.2.2 qDef 1 (by norm_num) (by norm_num)

/-- C7, counterexample: at month 12 the `src/main.py` engine charges property
tax of 1 (still computed from the purchase price 100), while the rate applied
to the month-12 home value (200, the house doubled) would be 2 — the charge is
frozen from an earlier month, contradicting the claim. -/
theorem claim7_counterexample :
    (srcStepFull q7w 12 (srcRun q7w 11)).tax = 1 ∧
      srcHomeValue q7w 12 * q7w.ptr / 12 = 2 ∧
      (srcStepFull q7w 12 (srcRun q7w 11)).tax ≠
        srcHomeValue q7w 12 * q7w.ptr / 12 := by
  have htax : (srcStepFull q7w 12 (srcRun q7w 11)).tax = 1 := by
    rw [srcStepFull_tax, srcPropTax_first_year q7w 11 (by norm_num)]
    norm_num [q7w, SrcParams.ptr]
  have hval : srcHomeValue q7w 12 * q7w.ptr / 12 = 2 := by
    unfold srcHomeValue
    have h2 : (1 : ℝ) + q7w.hpg = 2 := by norm_num [q7w, SrcParams.hpg]
    have he : ((12 : ℕ) : ℝ) / 12 = 1 := by norm_num
    rw [h2, he, Real.rpow_one]
    norm_num [q7w, SrcParams.ptr]
  exact ⟨htax, hval, by rw [htax, hval]; norm_num⟩

end

end RentVsBuy
